import Mathlib

/-!
Verification of the COS341Basic interpreter core against its design notes.

The development shallowly embeds the two core subsystems of the repository:

* the segment loader (`src/code_loader.rs`) together with the error taxonomy
  (`src/errors.rs`), and
* the interpreter state machine over the program-state record
  (`src/states.rs`, `src/prog_data.rs`).

Strings are modelled as `List Char`; Rust `usize` and `i128` are modelled as
`Nat` / `Int` with explicit range checks where the original code checks (or
fails to check) ranges.  A Rust function that can panic is modelled with an
`Option` wrapper: `none` is a panic, `some r` is a normal return of `r`.
-/

namespace COS341

/-- Convert a Lean string literal to the `List Char` representation used
throughout the development. -/
def str (s : String) : List Char := s.data

/-! ## Rust `Result` -/

/-- Model of Rust `Result<T, E>`. -/
inductive Result (α : Type) (ε : Type) where
  | Ok (val : α)
  | Err (e : ε)
deriving DecidableEq, Repr

/-! ## Error taxonomy (`src/errors.rs`) -/

/-- `errors.rs`: the closed set of loader failure conditions. -/
inductive ErrorTypes where
  | NoSegment
  | AllOk
  | MalformedAssignment
  | NotChronological
  | MalformedSegment
deriving DecidableEq, Repr, Fintype

/-- `errors.rs`: the two segment kinds an error can be attributed to. -/
inductive SegmentErrorTypes where
  | Variable
  | Code
deriving DecidableEq, Repr, Fintype

/-- `errors.rs`: `impl ErrorCodes for VariableErrorCodes { fn value }`. -/
def VariableErrorCodes.value : ErrorTypes → Nat
  | .NoSegment => 1
  | .AllOk => 0
  | .MalformedAssignment => 3
  | .NotChronological => 5
  | .MalformedSegment => 7

/-- `errors.rs`: `impl ErrorCodes for CodeErrorCode { fn value }`. -/
def CodeErrorCode.value : ErrorTypes → Nat
  | .NoSegment => 2
  | .AllOk => 0
  | .MalformedAssignment => 4
  | .NotChronological => 6
  | .MalformedSegment => 8

/-- `errors.rs`: `error(seg, code).value()` — the numeric code of a condition,
parameterised by segment kind. -/
def errorValue (seg : SegmentErrorTypes) (code : ErrorTypes) : Nat :=
  match seg with
  | .Variable => VariableErrorCodes.value code
  | .Code => CodeErrorCode.value code

/-! ## Character classes

The regular expressions of the source use `\d`, `\w`, `.` and whitespace
trimming.  They are modelled character by character (for the ASCII inputs the
interpreter language is made of; the Unicode extensions of Rust's `\w` and
`char::is_whitespace` are not modelled). -/

/-- The characters removed by Rust `str::trim` (the ASCII fragment of
`char::is_whitespace`): space, tab, line feed, vertical tab, form feed and
carriage return. -/
def isWsp (c : Char) : Bool :=
  c == ' ' || c == '\t' || c == '\n' || c == '\x0B' || c == '\x0C' || c == '\r'

/-- Regex `\w` (ASCII fragment): letters, digits and underscore. -/
def isWordChar (c : Char) : Bool := c.isAlphanum || c == '_'

/-- `str::trim`: drop leading whitespace. -/
def ltrim (l : List Char) : List Char := l.dropWhile isWsp

/-- `str::trim`: drop trailing whitespace. -/
def rtrim (l : List Char) : List Char := (l.reverse.dropWhile isWsp).reverse

/-- Rust `str::trim`. -/
def trim (l : List Char) : List Char := rtrim (ltrim l)

/-! ## Decimal numerals -/

/-- The decimal digit character for `n < 10`. -/
def digitChar (n : Nat) : Char := Char.ofNat (48 + n)

/-- Fuel-driven core of `natStr`; the fuel only serves structural recursion
and `natStrGo (n+1) n` is always enough. -/
def natStrGo : Nat → Nat → List Char
  | 0, _ => []
  | fuel + 1, n =>
    if n < 10 then [digitChar n]
    else natStrGo fuel (n / 10) ++ [digitChar (n % 10)]

/-- Rust `format!("{}", n)` for an unsigned integer: decimal digits, no sign,
no leading zeros (except `"0"` itself). -/
def natStr (n : Nat) : List Char := natStrGo (n + 1) n

/-- Rust `format!("{}", i)` for a signed integer. -/
def intStr (i : Int) : List Char :=
  if i < 0 then '-' :: natStr i.natAbs else natStr i.natAbs

/-- Numeric value of a digit string (the arithmetic core of Rust's
`str::parse` for unsigned integers). -/
def evalDec (l : List Char) : Nat := l.foldl (fun a c => 10 * a + (c.toNat - 48)) 0

/-- `usize::MAX` on the 64-bit targets the interpreter is built for. -/
def USIZE_MAX : Nat := 2 ^ 64 - 1

/-- Rust `str::parse::<usize>()` restricted to the sign-free strings the
`(\d+)` capture groups can produce: fails on a non-digit or on overflow. -/
def parseUsize (l : List Char) : Option Nat :=
  if l.isEmpty then none
  else if l.all Char.isDigit then
    if evalDec l ≤ USIZE_MAX then some (evalDec l) else none
  else none

/-- `i128::MIN`. -/
def I128_MIN : Int := -(2 ^ 127)

/-- `i128::MAX`. -/
def I128_MAX : Int := 2 ^ 127 - 1

/-- Rust `str::parse::<i128>()`: optional sign, at least one digit, and the
value must fit in `i128`. -/
def parseI128 (l : List Char) : Option Int :=
  match l with
  | '+' :: ds =>
    if ds.isEmpty then none
    else if ds.all Char.isDigit then
      if (evalDec ds : Int) ≤ I128_MAX then some (evalDec ds : Int) else none
    else none
  | '-' :: ds =>
    if ds.isEmpty then none
    else if ds.all Char.isDigit then
      if I128_MIN ≤ -(evalDec ds : Int) then some (-(evalDec ds : Int)) else none
    else none
  | ds =>
    if ds.isEmpty then none
    else if ds.all Char.isDigit then
      if (evalDec ds : Int) ≤ I128_MAX then some (evalDec ds : Int) else none
    else none

/-! ## Segment loader (`src/code_loader.rs`) -/

/-- Split on `'\n'`, keeping empty pieces (as Rust's `Regex::split` does). -/
def splitNL : List Char → List (List Char)
  | [] => [[]]
  | c :: rest =>
    if c = '\n' then [] :: splitNL rest
    else
      match splitNL rest with
      | [] => [[c]]
      | l :: ls => (c :: l) :: ls

/-- Remove one trailing `'\r'`, if any. -/
def stripCR (l : List Char) : List Char :=
  if l.getLast? = some '\r' then l.dropLast else l

/-- Strip a trailing `'\r'` from every piece except the last. -/
def mapStripLast : List (List Char) → List (List Char)
  | [] => []
  | [p] => [p]
  | p :: rest => stripCR p :: mapStripLast rest

/-- `Regex::new(r"(\n|\r\n)").split(..)`: split on line boundaries.  The
alternation consumes a bare `\n` or a `\r\n` pair (the two branches start
with distinct characters, so leftmost matching is deterministic); a `\r` not
followed by `\n` is ordinary payload text.  Equivalently: split on `'\n'`
and strip the `'\r'` that preceded each consumed `'\n'` — every piece but
the last. -/
def splitLines (s : List Char) : List (List Char) := mapStripLast (splitNL s)

/-- Matcher for the variable-segment line regex `^(\d+) (\w+)` of
`load_variable_segment`, returning the two capture groups.  `(\d+)` is the
maximal digit run from the start (a shorter run would be followed by a digit,
never by the required space, so greedy matching is exact), then one space,
then `(\w+)` is the maximal word-character run. -/
def varLineCaptures (l : List Char) : Option (List Char × List Char) :=
  let ds := l.takeWhile Char.isDigit
  if ds.isEmpty then none
  else
    match l.dropWhile Char.isDigit with
    | ' ' :: rest =>
      let w := rest.takeWhile isWordChar
      if w.isEmpty then none else some (ds, w)
    | _ => none

/-- Matcher for the code-segment line regex `^(\d+) (.+)` of
`load_code_segment`: index, one space, then `.` matches any character except
`\n`, greedily to the end. -/
def codeLineCaptures (l : List Char) : Option (List Char × List Char) :=
  let ds := l.takeWhile Char.isDigit
  if ds.isEmpty then none
  else
    match l.dropWhile Char.isDigit with
    | ' ' :: rest =>
      let w := rest.takeWhile (fun c => c != '\n')
      if w.isEmpty then none else some (ds, w)
    | _ => none

/-- The `for var in variables` loop of `load_segment`.  The source records the
error code in `err` and breaks; since the recorded codes are never `0`, that
is the same as returning the error at once, which is how it is modelled.
`none` models the panic of the unchecked `parse::<usize>().unwrap()` on an
index that overflows `usize`. -/
def loadLoop (segment_error_type : SegmentErrorTypes)
    (split_regex : List Char → Option (List Char × List Char)) :
    List (List Char) → Nat → List (List Char) →
    Option (Result (List (List Char)) Nat)
  | [], _, memory_vec => some (.Ok memory_vec.reverse)
  | var :: rest, variable_index, memory_vec =>
    if var.isEmpty then loadLoop segment_error_type split_regex rest variable_index memory_vec
    else
      match split_regex var with
      | none => some (.Err (errorValue segment_error_type .MalformedAssignment))
      | some (pos, val) =>
        match parseUsize pos with
        | none => none
        | some n =>
          if n ≠ variable_index then
            some (.Err (errorValue segment_error_type .NotChronological))
          else
            loadLoop segment_error_type split_regex rest (variable_index + 1) (val :: memory_vec)

/-- `code_loader.rs`: `load_segment`.  The `split_regex` parameter is the
capture function of the per-line regex; `is_match` of an `^`-anchored regex
coincides with `isSome` of its capture function. -/
def load_segment (segment_error_type : SegmentErrorTypes) (variable_string : List Char)
    (split_regex : List Char → Option (List Char × List Char)) :
    Option (Result (List (List Char)) Nat) :=
  if variable_string.length = 0 then some (.Ok [])
  else if (split_regex (trim variable_string)).isSome = false then
    some (.Err (errorValue segment_error_type .MalformedSegment))
  else loadLoop segment_error_type split_regex (splitLines variable_string) 0 []

/-- `code_loader.rs`: `load_variable_segment`. -/
def load_variable_segment (segment : List Char) : Option (Result (List (List Char)) Nat) :=
  load_segment .Variable segment varLineCaptures

/-- `code_loader.rs`: `load_code_segment`. -/
def load_code_segment (segment : List Char) : Option (Result (List (List Char)) Nat) :=
  load_segment .Code segment codeLineCaptures

/-! ## Program state (`src/prog_data.rs`)

`vars` is a `HashMap<String, String>` in the source; it is modelled as an
association list whose only observations — `get_var`, `contains_var` and the
value written by `set_var` — agree with the hash map's. -/

/-- `prog_data.rs`: `ProgramData`. -/
structure ProgramData where
  code : List (List Char)
  vars : List (List Char × List Char)
  stack : List (List Char)
  index : Nat
deriving DecidableEq, Repr

/-- `prog_data.rs`: `get_code` — the statement at `index`, if any. -/
def ProgramData.get_code (d : ProgramData) : Option (List Char) := d.code[d.index]?

/-- `prog_data.rs`: `set_index`. -/
def ProgramData.set_index (d : ProgramData) (new_index : Nat) : ProgramData :=
  { d with index := new_index }

/-- `prog_data.rs`: `get_index`. -/
def ProgramData.get_index (d : ProgramData) : Nat := d.index

/-- `prog_data.rs`: `next_line`. -/
def ProgramData.next_line (d : ProgramData) : ProgramData :=
  { d with index := d.index + 1 }

/-- `prog_data.rs`: `push` (`LinkedList::push_front`). -/
def ProgramData.push (d : ProgramData) (data : List Char) : ProgramData :=
  { d with stack := data :: d.stack }

/-- `prog_data.rs`: `pop` (`LinkedList::pop_front`), returning the popped
value together with the mutated record. -/
def ProgramData.pop (d : ProgramData) : Option (List Char) × ProgramData :=
  match d.stack with
  | [] => (none, d)
  | v :: rest => (some v, { d with stack := rest })

/-- `prog_data.rs`: `get_var`. -/
def ProgramData.get_var (d : ProgramData) (key : List Char) : Option (List Char) :=
  d.vars.lookup key

/-- `prog_data.rs`: `set_var` (`HashMap::insert`). -/
def ProgramData.set_var (d : ProgramData) (key value : List Char) : ProgramData :=
  { d with vars := (key, value) :: d.vars }

/-- `prog_data.rs`: `set_var_to_var`.  The source unwraps `get_var(rhs_key)`
and would panic when it is absent; every caller checks `contains_var` first,
so the absent case (modelled as the unchanged record) is unreachable. -/
def ProgramData.set_var_to_var (d : ProgramData) (lhs_key rhs_key : List Char) : ProgramData :=
  match d.get_var rhs_key with
  | some v => d.set_var lhs_key v
  | none => d

/-- `prog_data.rs`: `contains_var`. -/
def ProgramData.contains_var (d : ProgramData) (key : List Char) : Bool :=
  (d.get_var key).isSome

/-- `prog_data.rs`: `code_size`. -/
def ProgramData.code_size (d : ProgramData) : Nat := d.code.length

/-! ## Regex matchers for the instruction grammar (`src/states.rs`)

Each instruction regex of `states.rs` is unanchored, so a match is searched
from every position (`scanCapt`); the anchored matchers below follow each
regex literally.  None of these regexes needs real backtracking: every
sub-pattern (`\d+`, `\w+`, the operator alternations, literal text) either
fails outright or has a unique viable extent, as noted at each matcher. -/

/-- Match a literal string prefix and return the remainder. -/
def expectStr (pat l : List Char) : Option (List Char) :=
  if pat.isPrefixOf l then some (l.drop pat.length) else none

/-- `(\w+)`: the maximal nonempty word-character run and the remainder.
A shorter run would be followed by a word character, which none of the
contexts after `(\w+)` in the instruction regexes can consume, so greedy
matching is exact. -/
def grabWord (l : List Char) : Option (List Char × List Char) :=
  let w := l.takeWhile isWordChar
  if w.isEmpty then none else some (w, l.dropWhile isWordChar)

/-- `(\d+)`: the maximal nonempty digit run and the remainder. -/
def grabDigits (l : List Char) : Option (List Char × List Char) :=
  let ds := l.takeWhile Char.isDigit
  if ds.isEmpty then none else some (ds, l.dropWhile Char.isDigit)

/-- Unanchored search: run the anchored matcher at every position, leftmost
match first, as Rust's `Regex::captures` does. -/
def scanCapt {γ : Type} (capt : List Char → Option γ) : List Char → Option γ
  | [] => capt []
  | c :: rest =>
    match capt (c :: rest) with
    | some r => some r
    | none => scanCapt capt rest

/-- The comparison-operator alternation `(<=?|>=?|=|!=)` of the `if` regex.
Branches are tried left to right; `<=?`/`>=?` greedily take the `=`.  (When
`<=` is taken, backtracking to plain `<` could only continue with `=` where
the regex requires a space, so the greedy choice is exact.) -/
def opMatch : List Char → Option (List Char × List Char)
  | '<' :: '=' :: rest => some (str "<=", rest)
  | '<' :: rest => some (str "<", rest)
  | '>' :: '=' :: rest => some (str ">=", rest)
  | '>' :: rest => some (str ">", rest)
  | '=' :: rest => some (str "=", rest)
  | '!' :: '=' :: rest => some (str "!=", rest)
  | _ => none

/-- The arithmetic-operator class `([+\-*/])`. -/
def mathOpMatch : List Char → Option (List Char × List Char)
  | '+' :: rest => some (str "+", rest)
  | '-' :: rest => some (str "-", rest)
  | '*' :: rest => some (str "*", rest)
  | '/' :: rest => some (str "/", rest)
  | _ => none

/-- Anchored matcher for `if \$(\w+) (<=?|>=?|=|!=) \$(\w+) goto (\d+)`:
captures (lhs name, operator, rhs name, target digits). -/
def ifCapt (l : List Char) : Option (List Char × List Char × List Char × List Char) := do
  let l1 ← expectStr (str "if $") l
  let (lhs, l2) ← grabWord l1
  let l3 ← expectStr (str " ") l2
  let (cond, l4) ← opMatch l3
  let l5 ← expectStr (str " $") l4
  let (rhs, l6) ← grabWord l5
  let l7 ← expectStr (str " goto ") l6
  let (ds, _) ← grabDigits l7
  pure (lhs, cond, rhs, ds)

/-- Anchored matcher for `goto (\d+)`. -/
def gotoCapt (l : List Char) : Option (List Char) := do
  let l1 ← expectStr (str "goto ") l
  let (ds, _) ← grabDigits l1
  pure ds

/-- Anchored matcher for `output \$(\w+)`. -/
def outputCapt (l : List Char) : Option (List Char) := do
  let l1 ← expectStr (str "output $") l
  let (name, _) ← grabWord l1
  pure name

/-- Anchored matcher for `\$(\w+) = \$(\w+) ([+\-*/]) \$(\w+)` (the `MathState`
regex): captures (destination, lhs name, operator, rhs name). -/
def mathCapt (l : List Char) :
    Option (List Char × List Char × List Char × List Char) := do
  let l1 ← expectStr (str "$") l
  let (dst, l2) ← grabWord l1
  let l3 ← expectStr (str " = $") l2
  let (lhs, l4) ← grabWord l3
  let l5 ← expectStr (str " ") l4
  let (op, l6) ← mathOpMatch l5
  let l7 ← expectStr (str " $") l6
  let (rhs, _) ← grabWord l7
  pure (dst, lhs, op, rhs)

/-- `[a-zA-Z ]`: the character class inside the quoted-literal branch of the
assignment-value alternation. -/
def isQuotedChar (c : Char) : Bool := c.isAlpha || c == ' '

/-- The value alternation `(0+|([1-9]\d*)|"[a-zA-Z ]*")` of the
`assign_from_code` regex.  The three branches start with disjoint character
sets (`0`, `1`-`9`, `"`), so leftmost-first alternation is deterministic; the
capture includes the quotes of a string literal, exactly as capture group 2 of
the source regex does. -/
def valueAlt : List Char → Option (List Char × List Char)
  | [] => none
  | c :: rest =>
    if c == '0' then
      let zs := (c :: rest).takeWhile (fun x => x == '0')
      some (zs, (c :: rest).dropWhile (fun x => x == '0'))
    else if c.isDigit then
      let ds := (c :: rest).takeWhile Char.isDigit
      some (ds, (c :: rest).dropWhile Char.isDigit)
    else if c == '"' then
      let run := rest.takeWhile isQuotedChar
      match rest.dropWhile isQuotedChar with
      | '"' :: r2 => some ('"' :: (run ++ ['"']), r2)
      | _ => none
    else none

/-- Anchored matcher for `let \$(\w+) = (0+|([1-9]\d*)|"[a-zA-Z ]*")`
(`assign_from_code`): captures (name, value text). -/
def assignFromCodeCapt (l : List Char) : Option (List Char × List Char) := do
  let l1 ← expectStr (str "let $") l
  let (name, l2) ← grabWord l1
  let l3 ← expectStr (str " = ") l2
  let (val, _) ← valueAlt l3
  pure (name, val)

/-- Anchored matcher for `let \$(\w+) = pop` (`assign_from_stack`). -/
def assignFromStackCapt (l : List Char) : Option (List Char) := do
  let l1 ← expectStr (str "let $") l
  let (name, l2) ← grabWord l1
  let _ ← expectStr (str " = pop") l2
  pure name

/-- Anchored matcher for `let \$(\w+) = input` (`assign_from_input`). -/
def assignFromInputCapt (l : List Char) : Option (List Char) := do
  let l1 ← expectStr (str "let $") l
  let (name, l2) ← grabWord l1
  let _ ← expectStr (str " = input") l2
  pure name

/-- Anchored matcher for `let \$(\w+) = \$(\w+)` (`assign_from_memory`). -/
def assignFromMemoryCapt (l : List Char) : Option (List Char × List Char) := do
  let l1 ← expectStr (str "let $") l
  let (lhs, l2) ← grabWord l1
  let l3 ← expectStr (str " = $") l2
  let (rhs, _) ← grabWord l3
  pure (lhs, rhs)

/-- Anchored matcher for `let \$(\w+) = \$(\w+) ([+\-*/]) \$(\w+)`
(`assign_from_operation`). -/
def assignFromOperationCapt (l : List Char) :
    Option (List Char × List Char × List Char × List Char) := do
  let l1 ← expectStr (str "let $") l
  let (name, l2) ← grabWord l1
  let l3 ← expectStr (str " = $") l2
  let (lhs, l4) ← grabWord l3
  let l5 ← expectStr (str " ") l4
  let (op, l6) ← mathOpMatch l5
  let l7 ← expectStr (str " $") l6
  let (rhs, _) ← grabWord l7
  pure (name, lhs, op, rhs)

/-- `Regex::new(r"let").is_match(s)` etc.: unanchored literal search, i.e.
substring containment. -/
def containsSub (pat : List Char) : List Char → Bool
  | [] => pat.isEmpty
  | c :: t => pat.isPrefixOf (c :: t) || containsSub pat t

/-! ## Interpreter state machine (`src/states.rs`) -/

/-- `states.rs`: `pub enum States`. -/
inductive States where
  | AssignState
  | ExecuteState
  | GotoState
  | IfState
  | QuitState
  | OutputState
  | MathState
deriving DecidableEq, Repr

/-- The seven handler structs of `states.rs` (the `Box<dyn StateMachine>`
values `get_state` can return). -/
inductive Handler where
  | EndState
  | AssignState
  | ExecuteState
  | IfState
  | GotoState
  | OutputState
  | MathState
deriving DecidableEq, Repr

/-- `states.rs`: `get_state` — note `States::QuitState` yields the `EndState`
handler. -/
def get_state : States → Handler
  | .AssignState => .AssignState
  | .GotoState => .GotoState
  | .IfState => .IfState
  | .QuitState => .EndState
  | .OutputState => .OutputState
  | .ExecuteState => .ExecuteState
  | .MathState => .MathState

/-- The result type `NewState = Result<(ProgramData, Box<dyn StateMachine>), String>`
of `states.rs`, wrapped in `Option`: `none` models a panic. -/
def NewState : Type := Option (Result (ProgramData × Handler) (List Char))

instance : DecidableEq NewState := by
  unfold NewState; infer_instance

/-- `states.rs`: `decode_and_execute`.  `is_match` of a regex agrees with
`isSome` of its capture search, so the source's match-then-capture pair is a
single `match` here.  When there is no current instruction it transitions to
the quit state. -/
def decode_and_execute {γ : Type} (data : ProgramData)
    (capt : List Char → Option γ)
    (executor : ProgramData → List Char → γ → NewState)
    (error_msg : List Char) : NewState :=
  match data.get_code with
  | some value =>
    match capt value with
    | some captures => executor data value captures
    | none => some (.Err (error_msg ++ str ": " ++ value ++ str "\nAborting..."))
  | none => some (.Ok (data, get_state States.QuitState))

/-- `states.rs`: the `TRANSITION_FUNCTIONS` table used by `ExecuteState`,
in source order (`if` before `goto`). -/
def TRANSITION_FUNCTIONS : List (List Char × States) :=
  [(str "let", States.AssignState),
   (str "if", States.IfState),
   (str "goto", States.GotoState),
   (str "quit", States.QuitState),
   (str "output", States.OutputState)]

/-- The `for new_state in TRANSITION_FUNCTIONS.iter()` search of
`ExecuteState::execute`: first entry whose keyword occurs in the instruction. -/
def findTransition (value : List Char) : List (List Char × States) → Option States
  | [] => none
  | (kw, st) :: rest =>
    if containsSub kw value then some st else findTransition value rest

/-- `states.rs`: `ExecuteState::execute`.  Its regex `(.*)` matches every
string, so the executor always runs when an instruction is present. -/
def ExecuteState.execute (data : ProgramData) : NewState :=
  decode_and_execute data (fun _ => some ())
    (fun data value _ =>
      match findTransition value TRANSITION_FUNCTIONS with
      | some st => some (.Ok (data, get_state st))
      | none => some (.Err (str "Unknown instruction: " ++ value ++ str "\nAborting...")))
    (str "Unknown instruction")

/-- `states.rs`: `EndState::execute`.  `do_exit()` terminates the process in
a non-test build; the `Err("Exit")` the function would return is kept as the
modelled result. -/
def EndState.execute (_ : ProgramData) : NewState :=
  some (.Err (str "Exit"))

/-- `states.rs`: `GotoState::execute`.  `none` models the panic of
`parse::<usize>().unwrap()` on a target that overflows `usize`. -/
def GotoState.execute (data : ProgramData) : NewState :=
  decode_and_execute data (scanCapt gotoCapt)
    (fun data _ goto_capture =>
      match parseUsize goto_capture with
      | none => none
      | some goto_ptr =>
        if goto_ptr ≥ data.code_size then
          some (.Err (str "Goto statement points to region out of bounds!\nAborting..."))
        else
          some (.Ok (data.set_index goto_ptr, get_state States.ExecuteState)))
    (str "Invalid goto statement")

/-- Lexicographic (byte-wise) comparison of Rust `&str` values; for the
UTF-8 encoded strings of the interpreter this is codepoint order. -/
def str_cmp : List Char → List Char → Ordering
  | [], [] => .eq
  | [], _ :: _ => .lt
  | _ :: _, [] => .gt
  | a :: as_, b :: bs =>
    if a.toNat < b.toNat then .lt
    else if b.toNat < a.toNat then .gt
    else str_cmp as_ bs

/-- Rust `str::lt`. -/
def str_lt (a b : List Char) : Bool := str_cmp a b == .lt

/-- Rust `str::gt`. -/
def str_gt (a b : List Char) : Bool := str_cmp a b == .gt

/-- Rust `str::le`. -/
def str_le (a b : List Char) : Bool := !(str_cmp a b == .gt)

/-- Rust `str::ge`. -/
def str_ge (a b : List Char) : Bool := !(str_cmp a b == .lt)

/-- The predicate table of `IfState::execute`, keyed by the captured
comparison operator; the catch-all `false` arm is unreachable because the
regex only captures the six listed operators. -/
def ifPredicate (condition lhs rhs : List Char) : Bool :=
  if condition = str ">=" then str_ge lhs rhs
  else if condition = str ">" then str_gt lhs rhs
  else if condition = str "<=" then str_le lhs rhs
  else if condition = str "<" then str_lt lhs rhs
  else if condition = str "=" then lhs == rhs
  else if condition = str "!=" then !(lhs == rhs)
  else false

/-- `states.rs`: `IfState::execute`.  Mirrors the source order: the goto
target is parsed (and can panic, modelled by `none`) before the two variables
are checked; the taken branch installs the target with no bounds check. -/
def IfState.execute (data : ProgramData) : NewState :=
  decode_and_execute data (scanCapt ifCapt)
    (fun data _ captures =>
      let lhs_name := captures.1
      let condition := captures.2.1
      let rhs_name := captures.2.2.1
      match parseUsize captures.2.2.2 with
      | none => none
      | some code_pos =>
        match data.get_var lhs_name with
        | none => some (.Err (str "Variable $" ++ lhs_name ++ str " does not exist!\nAborting..."))
        | some lhs_val =>
          match data.get_var rhs_name with
          | none => some (.Err (str "Variable $" ++ rhs_name ++ str " does not exist!\nAborting..."))
          | some rhs_val =>
            let goto_pos :=
              if ifPredicate condition lhs_val rhs_val then code_pos
              else data.get_index + 1
            some (.Ok (data.set_index goto_pos, get_state States.ExecuteState)))
    (str "Invalid if statement")

/-- `states.rs`: `OutputState::execute`.  `write_output` prints the value to
the external output collaborator and does not change the program state, so it
is not modelled. -/
def OutputState.execute (data : ProgramData) : NewState :=
  decode_and_execute data (scanCapt outputCapt)
    (fun data _ var_name =>
      match data.get_var var_name with
      | some _ => some (.Ok (data.next_line, get_state States.ExecuteState))
      | none => some (.Err (str "Memory index out of bounds!\nAborting...")))
    (str "Lolwut")

/-- `states.rs`: `AssignState::execute`.  The five right-hand-side shapes are
tried in source order: hardcoded value, `pop`, arithmetic operation (which
delegates to `MathState` without advancing), `input`, variable copy.  The
`input` collaborator (`get_input()`, one trimmed line of standard input) is
threaded in as the `input` parameter. -/
def AssignState.execute (input : List Char) (data : ProgramData) : NewState :=
  match data.get_code with
  | none => some (.Ok (data, get_state States.QuitState))
  | some value =>
    match scanCapt assignFromCodeCapt value with
    | some assign_tokens =>
      let var_name := assign_tokens.1
      let var_val := (assign_tokens.2).filter (fun c => c != '"')
      some (.Ok ((data.set_var var_name var_val).next_line, get_state States.ExecuteState))
    | none =>
      match scanCapt assignFromStackCapt value with
      | some var_val =>
        match data.pop.1 with
        | some stack_val =>
          some (.Ok ((data.pop.2.set_var var_val stack_val).next_line,
            get_state States.ExecuteState))
        | none => some (.Err (str "Stack is empty!\nAborting..."))
      | none =>
        match scanCapt assignFromOperationCapt value with
        | some _ => some (.Ok (data, get_state States.MathState))
        | none =>
          match scanCapt assignFromInputCapt value with
          | some var_name =>
            some (.Ok ((data.set_var var_name input).next_line, get_state States.ExecuteState))
          | none =>
            match scanCapt assignFromMemoryCapt value with
            | some keys =>
              let lhs_key := keys.1
              let rhs_key := keys.2
              if data.contains_var rhs_key = false then
                some (.Err (str "Variable $" ++ rhs_key ++ str " does not exist!\nAborting..."))
              else
                some (.Ok ((data.set_var_to_var lhs_key rhs_key).next_line,
                  get_state States.ExecuteState))
            | none =>
              some (.Err (str "Invalid assign instruction: " ++ value ++ str "\nAborting..."))

/-- Rust `str::split` on the literal pattern `"."` (the `r"."` argument of
`result.split` is a plain `&str` pattern, not a regex). -/
def splitOn (sep : Char) : List Char → List (List Char)
  | [] => [[]]
  | c :: rest =>
    if c == sep then [] :: splitOn sep rest
    else
      match splitOn sep rest with
      | [] => [[c]]
      | l :: ls => (c :: l) :: ls

/-- Two's-complement wrap-around into the `i128` range, the release-build
behaviour of `i128` `+`, `-` and `*`.  (A debug build would panic instead;
no claim depends on an overflowing `+`, `-` or `*`.) -/
def wrap128 (n : Int) : Int := (n + 2 ^ 127) % 2 ^ 128 - 2 ^ 127

/-- `states.rs`: `MathState::execute`.  `div_rem` on `i128` is truncating
division with dividend-signed remainder (`Int.tdiv` / `Int.tmod`); it panics
— modelled by `none` — on a zero divisor and on `i128::MIN / -1`.  The
quotient/remainder pair is formatted as `"q.r"`, split on `'.'` again, the
quotient bound to the destination and the remainder pushed; a `+`, `-` or `*`
result never contains `'.'`, so it is bound directly. -/
def MathState.execute (data : ProgramData) : NewState :=
  decode_and_execute data (scanCapt mathCapt)
    (fun data _ captures =>
      let assign_name := captures.1
      let lhs_name := captures.2.1
      let operation := captures.2.2.1
      let rhs_name := captures.2.2.2
      match data.get_var lhs_name with
      | none => some (.Err (str "Variable $" ++ lhs_name ++ str " does not exist!\nAborting..."))
      | some lhs_str =>
        match data.get_var rhs_name with
        | none => some (.Err (str "Variable $" ++ rhs_name ++ str " does not exist!\nAborting..."))
        | some rhs_str =>
          match parseI128 lhs_str with
          | none => some (.Err (str "$" ++ lhs_name ++ str " is not a numeric value!\nAborting..."))
          | some lhs_val =>
            match parseI128 rhs_str with
            | none => some (.Err (str "$" ++ rhs_name ++ str " is not a numeric value!\nAborting..."))
            | some rhs_val =>
              let result : Option (List Char) :=
                if operation = str "*" then some (intStr (wrap128 (lhs_val * rhs_val)))
                else if operation = str "/" then
                  if rhs_val = 0 ∨ (lhs_val = I128_MIN ∧ rhs_val = -1) then none
                  else some (intStr (Int.tdiv lhs_val rhs_val) ++ '.' ::
                    intStr (Int.tmod lhs_val rhs_val))
                else if operation = str "+" then some (intStr (wrap128 (lhs_val + rhs_val)))
                else if operation = str "-" then some (intStr (wrap128 (lhs_val - rhs_val)))
                else none
              match result with
              | none => none
              | some res =>
                if res.contains '.' then
                  match splitOn '.' res with
                  | division0 :: division1 :: _ =>
                    some (.Ok ((((data.set_var assign_name division0).push division1).next_line),
                      get_state States.ExecuteState))
                  | _ => none
                else
                  some (.Ok ((data.set_var assign_name res).next_line,
                    get_state States.ExecuteState)))
    (str "Lolwut")

/-! ## Helper lemmas on the program-state record -/

@[simp] theorem ProgramData.set_var_code (d : ProgramData) (k v : List Char) :
    (d.set_var k v).code = d.code := rfl

@[simp] theorem ProgramData.set_var_index (d : ProgramData) (k v : List Char) :
    (d.set_var k v).index = d.index := rfl

@[simp] theorem ProgramData.next_line_code (d : ProgramData) :
    d.next_line.code = d.code := rfl

@[simp] theorem ProgramData.next_line_index (d : ProgramData) :
    d.next_line.index = d.index + 1 := rfl

@[simp] theorem ProgramData.set_index_code (d : ProgramData) (n : Nat) :
    (d.set_index n).code = d.code := rfl

@[simp] theorem ProgramData.set_index_index (d : ProgramData) (n : Nat) :
    (d.set_index n).index = n := rfl

@[simp] theorem ProgramData.push_code (d : ProgramData) (v : List Char) :
    (d.push v).code = d.code := rfl

@[simp] theorem ProgramData.push_index (d : ProgramData) (v : List Char) :
    (d.push v).index = d.index := rfl

@[simp] theorem ProgramData.pop_code (d : ProgramData) :
    (d.pop).2.code = d.code := by
  unfold ProgramData.pop; cases d.stack <;> rfl

@[simp] theorem ProgramData.pop_index (d : ProgramData) :
    (d.pop).2.index = d.index := by
  unfold ProgramData.pop; cases d.stack <;> rfl

@[simp] theorem ProgramData.set_var_to_var_code (d : ProgramData) (k₁ k₂ : List Char) :
    (d.set_var_to_var k₁ k₂).code = d.code := by
  unfold ProgramData.set_var_to_var; cases d.get_var k₂ <;> rfl

@[simp] theorem ProgramData.set_var_to_var_index (d : ProgramData) (k₁ k₂ : List Char) :
    (d.set_var_to_var k₁ k₂).index = d.index := by
  unfold ProgramData.set_var_to_var; cases d.get_var k₂ <;> rfl

/-- If `get_code` finds an instruction, the instruction pointer is a valid
index. -/
theorem ProgramData.get_code_lt {d : ProgramData} {v : List Char}
    (h : d.get_code = some v) : d.index < d.code.length := by
  by_contra hn
  rw [ProgramData.get_code, List.getElem?_eq_none (Nat.le_of_not_lt hn)] at h
  exact Option.noConfusion h

set_option maxRecDepth 100000

/-! ## Claim C8: the error-code encoding -/

/-- C8 fails as stated: the `AllOk` condition is one of the five listed
conditions, and both `VariableErrorCodes` and `CodeErrorCode` encode it as
the same numeric code `0`, not as two different codes. -/
theorem C8_counterexample :
    errorValue SegmentErrorTypes.Variable ErrorTypes.AllOk = 0
    ∧ errorValue SegmentErrorTypes.Code ErrorTypes.AllOk = 0 := by decide

/-- C8 (amended): every condition other than `AllOk` receives two different
numeric codes for the two segment kinds, within each segment kind the five
conditions receive pairwise distinct codes, and `AllOk` is encoded as `0` by
both kinds. -/
theorem C8_error_codes :
    (∀ e : ErrorTypes, e ≠ ErrorTypes.AllOk →
      errorValue SegmentErrorTypes.Variable e ≠ errorValue SegmentErrorTypes.Code e)
    ∧ (∀ e₁ e₂ : ErrorTypes, errorValue SegmentErrorTypes.Variable e₁ =
        errorValue SegmentErrorTypes.Variable e₂ → e₁ = e₂)
    ∧ (∀ e₁ e₂ : ErrorTypes, errorValue SegmentErrorTypes.Code e₁ =
        errorValue SegmentErrorTypes.Code e₂ → e₁ = e₂)
    ∧ errorValue SegmentErrorTypes.Variable ErrorTypes.AllOk =
        errorValue SegmentErrorTypes.Code ErrorTypes.AllOk := by decide

/-- Witness for C8: the `NoSegment` condition is coded `1` for the variable
segment and `2` for the code segment. -/
theorem C8_error_codes_witness :
    errorValue SegmentErrorTypes.Variable ErrorTypes.NoSegment ≠
      errorValue SegmentErrorTypes.Code ErrorTypes.NoSegment :=
  C8_error_codes.1 ErrorTypes.NoSegment (by decide)

/-! ## Claim C9: division by zero panics -/

/-- C9: on the reachable state with code `let $c = $a / $b`, `a = "7"` and
`b = "0"`, both variables exist and both values parse as integers, yet
`MathState::execute` panics (`none`: the division by zero inside `div_rem`)
instead of returning an `Err`. -/
theorem C9_division_by_zero_panics :
    MathState.execute
      ⟨[str "let $c = $a / $b"], [(str "a", str "7"), (str "b", str "0")], [], 0⟩ = none
    ∧ (ProgramData.contains_var
        ⟨[str "let $c = $a / $b"], [(str "a", str "7"), (str "b", str "0")], [], 0⟩
        (str "a") = true)
    ∧ (ProgramData.get_var
        ⟨[str "let $c = $a / $b"], [(str "a", str "7"), (str "b", str "0")], [], 0⟩
        (str "b") = some (str "0")) := by decide

/-! ## Claim C10: an index beyond `usize::MAX` panics the loader -/

/-- C10: the 30-digit index of the line `111111111111111111111111111111 a`
matches the line grammar (the captures are the digit run and the payload) and
exceeds `usize::MAX`, and `load_segment` panics (`none`: the unchecked
`parse::<usize>().unwrap()`) instead of returning an error code. -/
theorem C10_usize_overflow_panics :
    load_variable_segment (str "111111111111111111111111111111 a") = none
    ∧ varLineCaptures (str "111111111111111111111111111111 a") =
        some (str "111111111111111111111111111111", str "a")
    ∧ USIZE_MAX < evalDec (str "111111111111111111111111111111") := by decide

/-! ## Claim C6: Execute's instruction classification -/

/-- C6: when an instruction is present, `ExecuteState::execute` classifies it
by testing the keyword predicates in the fixed priority order `let`, `if`,
`goto`, `quit`, `output`, transitioning to the corresponding handler
(`Assign`, `If`, `Goto`, `End`, `Output`) for the first keyword that occurs
in the text, fails with "Unknown instruction: <text>" when none occurs, and
returns the program state unchanged in every success case. -/
theorem C6_execute_classification (d : ProgramData) (v : List Char)
    (h : d.get_code = some v) :
    ExecuteState.execute d =
      (if containsSub (str "let") v then some (.Ok (d, Handler.AssignState))
       else if containsSub (str "if") v then some (.Ok (d, Handler.IfState))
       else if containsSub (str "goto") v then some (.Ok (d, Handler.GotoState))
       else if containsSub (str "quit") v then some (.Ok (d, Handler.EndState))
       else if containsSub (str "output") v then some (.Ok (d, Handler.OutputState))
       else some (.Err (str "Unknown instruction: " ++ v ++ str "\nAborting..."))) := by
  simp only [ExecuteState.execute, decode_and_execute, h, TRANSITION_FUNCTIONS, findTransition]
  split_ifs <;> rfl

/-- Witness for C6: the instruction `quit` contains none of `let`, `if`,
`goto` before `quit`, so Execute hands the unchanged state to the End
handler. -/
theorem C6_execute_classification_witness :
    ExecuteState.execute ⟨[str "quit"], [], [], 0⟩ =
      some (.Ok (⟨[str "quit"], [], [], 0⟩, Handler.EndState)) := by
  rw [C6_execute_classification ⟨[str "quit"], [], [], 0⟩ (str "quit") (by decide)]
  decide

/-! ## Claim C1: preservation of the instruction-pointer invariant -/

/-- The Execute handler never moves the instruction pointer. -/
theorem executeState_ok_ip {d d' : ProgramData} {h : Handler}
    (hok : ExecuteState.execute d = some (.Ok (d', h)))
    (hinv : d.index ≤ d.code.length) : d'.index ≤ d'.code.length := by
  unfold ExecuteState.execute decode_and_execute at hok
  cases hg : d.get_code with
  | none =>
    simp only [hg, Option.some.injEq, Result.Ok.injEq, Prod.mk.injEq] at hok
    obtain ⟨rfl, -⟩ := hok
    exact hinv
  | some v =>
    simp only [hg] at hok
    cases hf : findTransition v TRANSITION_FUNCTIONS with
    | some st =>
      simp only [hf, Option.some.injEq, Result.Ok.injEq, Prod.mk.injEq] at hok
      obtain ⟨rfl, -⟩ := hok
      exact hinv
    | none =>
      simp only [hf] at hok
      injection hok with hh
      exact Result.noConfusion hh

/-- A successful Goto lands strictly inside the code. -/
theorem gotoState_ok_ip {d d' : ProgramData} {h : Handler}
    (hok : GotoState.execute d = some (.Ok (d', h)))
    (hinv : d.index ≤ d.code.length) : d'.index ≤ d'.code.length := by
  unfold GotoState.execute decode_and_execute at hok
  cases hg : d.get_code with
  | none =>
    simp only [hg, Option.some.injEq, Result.Ok.injEq, Prod.mk.injEq] at hok
    obtain ⟨rfl, -⟩ := hok
    exact hinv
  | some v =>
    simp only [hg] at hok
    cases hc : scanCapt gotoCapt v with
    | none =>
      simp only [hc] at hok
      injection hok with hh
      exact Result.noConfusion hh
    | some ds =>
      simp only [hc] at hok
      cases hp : parseUsize ds with
      | none =>
        simp only [hp] at hok
        exact Option.noConfusion hok
      | some goto_ptr =>
        simp only [hp] at hok
        by_cases hb : goto_ptr ≥ d.code_size
        · rw [if_pos hb] at hok
          injection hok with hh
          exact Result.noConfusion hh
        · rw [if_neg hb] at hok
          injection hok with hh
          injection hh with hh2
          injection hh2 with h1 h2
          subst h1
          simp only [ProgramData.set_index_index, ProgramData.set_index_code]
          unfold ProgramData.code_size at hb
          omega

/-- Every successful Output advances by one from a valid instruction. -/
theorem outputState_ok_ip {d d' : ProgramData} {h : Handler}
    (hok : OutputState.execute d = some (.Ok (d', h)))
    (hinv : d.index ≤ d.code.length) : d'.index ≤ d'.code.length := by
  unfold OutputState.execute decode_and_execute at hok
  cases hg : d.get_code with
  | none =>
    simp only [hg, Option.some.injEq, Result.Ok.injEq, Prod.mk.injEq] at hok
    obtain ⟨rfl, -⟩ := hok
    exact hinv
  | some v =>
    have hlt : d.index < d.code.length := ProgramData.get_code_lt hg
    simp only [hg] at hok
    cases hc : scanCapt outputCapt v with
    | none =>
      simp only [hc] at hok
      injection hok with hh
      exact Result.noConfusion hh
    | some name =>
      simp only [hc] at hok
      cases hv : d.get_var name with
      | none =>
        simp only [hv] at hok
        injection hok with hh
        exact Result.noConfusion hh
      | some val =>
        simp only [hv, Option.some.injEq, Result.Ok.injEq, Prod.mk.injEq] at hok
        obtain ⟨rfl, -⟩ := hok
        simp only [ProgramData.next_line_index, ProgramData.next_line_code]
        omega

/-- Every successful Assign advances by one, stays put (the arithmetic
delegation and the end-of-code transition), and never touches the code list. -/
theorem assignState_ok_ip {inp : List Char} {d d' : ProgramData} {h : Handler}
    (hok : AssignState.execute inp d = some (.Ok (d', h)))
    (hinv : d.index ≤ d.code.length) : d'.index ≤ d'.code.length := by
  unfold AssignState.execute at hok
  cases hg : d.get_code with
  | none =>
    simp only [hg, Option.some.injEq, Result.Ok.injEq, Prod.mk.injEq] at hok
    obtain ⟨rfl, -⟩ := hok
    exact hinv
  | some v =>
    have hlt : d.index < d.code.length := ProgramData.get_code_lt hg
    simp only [hg] at hok
    repeat' split at hok
    all_goals
      first
      | exact Option.noConfusion hok
      | (injection hok with hh
         first
         | exact Result.noConfusion hh
         | (injection hh with hh2
            injection hh2 with h1 h2
            subst h1
            (try simp only [ProgramData.next_line_index, ProgramData.next_line_code,
              ProgramData.set_var_index, ProgramData.set_var_code,
              ProgramData.set_var_to_var_index, ProgramData.set_var_to_var_code,
              ProgramData.pop_index, ProgramData.pop_code])
            omega))

/-- Every successful Math advances by one from a valid instruction. -/
theorem mathState_ok_ip {d d' : ProgramData} {h : Handler}
    (hok : MathState.execute d = some (.Ok (d', h)))
    (hinv : d.index ≤ d.code.length) : d'.index ≤ d'.code.length := by
  unfold MathState.execute decode_and_execute at hok
  cases hg : d.get_code with
  | none =>
    simp only [hg, Option.some.injEq, Result.Ok.injEq, Prod.mk.injEq] at hok
    obtain ⟨rfl, -⟩ := hok
    exact hinv
  | some v =>
    have hlt : d.index < d.code.length := ProgramData.get_code_lt hg
    simp only [hg] at hok
    repeat' split at hok
    all_goals
      first
      | exact Option.noConfusion hok
      | (injection hok with hh
         first
         | exact Result.noConfusion hh
         | (injection hh with hh2
            injection hh2 with h1 h2
            subst h1
            (try simp only [ProgramData.next_line_index, ProgramData.next_line_code,
              ProgramData.set_var_index, ProgramData.set_var_code,
              ProgramData.push_index, ProgramData.push_code])
            omega))

/-- A successful If either advances by one or installs the parsed goto
target, which is not bounds-checked; under the extra hypothesis that the
target is within bounds the invariant is preserved. -/
theorem ifState_ok_ip {d d' : ProgramData} {h : Handler}
    (hok : IfState.execute d = some (.Ok (d', h)))
    (hinv : d.index ≤ d.code.length)
    (htarget : ∀ v captures, d.get_code = some v →
      scanCapt ifCapt v = some captures → evalDec captures.2.2.2 ≤ d.code.length) :
    d'.index ≤ d'.code.length := by
  unfold IfState.execute decode_and_execute at hok
  cases hg : d.get_code with
  | none =>
    simp only [hg, Option.some.injEq, Result.Ok.injEq, Prod.mk.injEq] at hok
    obtain ⟨rfl, -⟩ := hok
    exact hinv
  | some v =>
    have hlt : d.index < d.code.length := ProgramData.get_code_lt hg
    simp only [hg] at hok
    cases hc : scanCapt ifCapt v with
    | none =>
      simp only [hc] at hok
      injection hok with hh
      exact Result.noConfusion hh
    | some captures =>
      simp only [hc] at hok
      have hbound := htarget v captures hg hc
      cases hp : parseUsize captures.2.2.2 with
      | none =>
        simp only [hp] at hok
        exact Option.noConfusion hok
      | some code_pos =>
        have hval : code_pos = evalDec captures.2.2.2 := by
          unfold parseUsize at hp
          split at hp
          · exact Option.noConfusion hp
          · split at hp
            · split at hp
              · exact (Option.some.inj hp).symm
              · exact Option.noConfusion hp
            · exact Option.noConfusion hp
        simp only [hp] at hok
        repeat' split at hok
        all_goals
          first
          | exact Option.noConfusion hok
          | (injection hok with hh
             first
             | exact Result.noConfusion hh
             | (injection hh with hh2
                injection hh2 with h1 h2
                subst h1
                (try simp only [ProgramData.set_index_index, ProgramData.set_index_code,
                  ProgramData.get_index])
                omega))

/-- C1 fails as stated: `IfState::execute`, unlike `GotoState::execute`, does
not bounds-check the goto target.  From the valid state with the single
instruction `if $a < $b goto 5` (ip `0`, code length `1`, `a = "0"`,
`b = "1"`), the handler returns `Ok` with ip `5`, which is neither a valid
index nor the terminal value `1`. -/
theorem C1_counterexample :
    IfState.execute ⟨[str "if $a < $b goto 5"], [(str "a", str "0"), (str "b", str "1")], [], 0⟩ =
      some (.Ok (⟨[str "if $a < $b goto 5"], [(str "a", str "0"), (str "b", str "1")], [], 5⟩,
        Handler.ExecuteState))
    ∧ ¬((⟨[str "if $a < $b goto 5"], [(str "a", str "0"), (str "b", str "1")], [], 5⟩ :
        ProgramData).index ≤
      (⟨[str "if $a < $b goto 5"], [(str "a", str "0"), (str "b", str "1")], [], 5⟩ :
        ProgramData).code.length) := by
  constructor
  · decide
  · decide

/-- C1 (amended): starting from a state whose ip is a valid index or equals
`code.length`, every `Ok` result of the Execute, Assign, Goto, Output and
Math handlers again satisfies the invariant unconditionally; an `Ok` result
of the If handler satisfies it under the additional premise that the
instruction's parsed goto target is at most `code.length` (the If handler
installs the target without a bounds check). -/
theorem C1_ip_invariant (d : ProgramData) (inp : List Char)
    (hinv : d.index ≤ d.code.length) :
    (∀ d' h, ExecuteState.execute d = some (.Ok (d', h)) → d'.index ≤ d'.code.length)
    ∧ (∀ d' h, AssignState.execute inp d = some (.Ok (d', h)) → d'.index ≤ d'.code.length)
    ∧ (∀ d' h, GotoState.execute d = some (.Ok (d', h)) → d'.index ≤ d'.code.length)
    ∧ (∀ d' h, OutputState.execute d = some (.Ok (d', h)) → d'.index ≤ d'.code.length)
    ∧ (∀ d' h, MathState.execute d = some (.Ok (d', h)) → d'.index ≤ d'.code.length)
    ∧ (∀ d' h, (∀ v captures, d.get_code = some v →
          scanCapt ifCapt v = some captures → evalDec captures.2.2.2 ≤ d.code.length) →
        IfState.execute d = some (.Ok (d', h)) → d'.index ≤ d'.code.length) :=
  ⟨fun _ _ hok => executeState_ok_ip hok hinv,
   fun _ _ hok => assignState_ok_ip hok hinv,
   fun _ _ hok => gotoState_ok_ip hok hinv,
   fun _ _ hok => outputState_ok_ip hok hinv,
   fun _ _ hok => mathState_ok_ip hok hinv,
   fun _ _ ht hok => ifState_ok_ip hok hinv ht⟩

/-- Witness for C1: the Execute handler on the one-instruction program
`quit` at ip `0` returns `Ok` with the invariant intact. -/
theorem C1_ip_invariant_witness :
    (⟨[str "quit"], [], [], 0⟩ : ProgramData).index ≤
      (⟨[str "quit"], [], [], 0⟩ : ProgramData).code.length :=
  (C1_ip_invariant ⟨[str "quit"], [], [], 0⟩ [] (by decide)).1
    ⟨[str "quit"], [], [], 0⟩ Handler.EndState (by decide)

/-! ## Lemmas about scanning, numerals and splitting -/

theorem takeWhile_append_stop {α : Type} (p : α → Bool) :
    ∀ (w : List α) {c : α} (rest : List α), (∀ x ∈ w, p x = true) → p c = false →
      (w ++ c :: rest).takeWhile p = w ∧ (w ++ c :: rest).dropWhile p = c :: rest
  | [], c, rest, _, hc => by
    simp [List.takeWhile, List.dropWhile, hc]
  | a :: w, c, rest, hall, hc => by
    have ha : p a = true := hall a (List.mem_cons_self a w)
    have ih := takeWhile_append_stop p w rest (fun x hx => hall x (List.mem_cons_of_mem a hx)) hc
    simp only [List.cons_append, List.takeWhile_cons, List.dropWhile_cons, ha, if_true,
      ih.1, ih.2]
    exact ⟨trivial, trivial⟩

theorem takeWhile_all {α : Type} (p : α → Bool) :
    ∀ (w : List α), (∀ x ∈ w, p x = true) →
      w.takeWhile p = w ∧ w.dropWhile p = []
  | [], _ => ⟨rfl, rfl⟩
  | a :: w, hall => by
    have ha : p a = true := hall a (List.mem_cons_self a w)
    have ih := takeWhile_all p w (fun x hx => hall x (List.mem_cons_of_mem a hx))
    simp only [List.takeWhile_cons, List.dropWhile_cons, ha, if_true, ih.1, ih.2]
    exact ⟨trivial, trivial⟩

theorem expectStr_append (pat rest : List Char) : expectStr pat (pat ++ rest) = some rest := by
  unfold expectStr
  rw [if_pos, List.drop_left]
  rw [List.isPrefixOf_iff_prefix]
  exact List.prefix_append pat rest

/-- A word predicate: a nonempty all-word-character string. -/
def wordOk (w : List Char) : Prop := w ≠ [] ∧ ∀ c ∈ w, isWordChar c = true

instance (w : List Char) : Decidable (wordOk w) := by
  unfold wordOk; infer_instance

theorem grabWord_stop {w : List Char} {c : Char} {rest : List Char}
    (hw : wordOk w) (hc : isWordChar c = false) :
    grabWord (w ++ c :: rest) = some (w, c :: rest) := by
  obtain ⟨t, d⟩ := takeWhile_append_stop isWordChar w rest hw.2 hc
  unfold grabWord
  rw [t, d, if_neg]
  intro hempty
  exact hw.1 (List.isEmpty_iff.mp hempty)

theorem grabWord_end {w : List Char} (hw : wordOk w) :
    grabWord w = some (w, []) := by
  obtain ⟨t, d⟩ := takeWhile_all isWordChar w hw.2
  unfold grabWord
  rw [t, d, if_neg]
  intro hempty
  exact hw.1 (List.isEmpty_iff.mp hempty)

/-- A digit-run predicate: a nonempty all-digit string. -/
def digitsOk (w : List Char) : Prop := w ≠ [] ∧ ∀ c ∈ w, c.isDigit = true

instance (w : List Char) : Decidable (digitsOk w) := by
  unfold digitsOk; infer_instance

theorem grabDigits_stop {w : List Char} {c : Char} {rest : List Char}
    (hw : digitsOk w) (hc : c.isDigit = false) :
    grabDigits (w ++ c :: rest) = some (w, c :: rest) := by
  obtain ⟨t, d⟩ := takeWhile_append_stop Char.isDigit w rest hw.2 hc
  unfold grabDigits
  rw [t, d, if_neg]
  intro hempty
  exact hw.1 (List.isEmpty_iff.mp hempty)

theorem grabDigits_end {w : List Char} (hw : digitsOk w) :
    grabDigits w = some (w, []) := by
  obtain ⟨t, d⟩ := takeWhile_all Char.isDigit w hw.2
  unfold grabDigits
  rw [t, d, if_neg]
  intro hempty
  exact hw.1 (List.isEmpty_iff.mp hempty)

theorem scanCapt_here {γ : Type} {capt : List Char → Option γ} {l : List Char} {r : γ}
    (h : capt l = some r) : scanCapt capt l = some r := by
  cases l with
  | nil => exact h
  | cons c t => unfold scanCapt; rw [h]

theorem scanCapt_cons {γ : Type} {capt : List Char → Option γ} {c : Char} {t : List Char}
    (h : capt (c :: t) = none) : scanCapt capt (c :: t) = scanCapt capt t := by
  show (match capt (c :: t) with | some r => some r | none => scanCapt capt t) = scanCapt capt t
  rw [h]

theorem digitChar_isDigit {n : Nat} (h : n < 10) : (digitChar n).isDigit = true := by
  interval_cases n <;> decide

theorem digitChar_toNat {n : Nat} (h : n < 10) : (digitChar n).toNat = 48 + n := by
  interval_cases n <;> decide

theorem natStrGo_all_digits : ∀ (fuel n : Nat), ∀ c ∈ natStrGo fuel n, c.isDigit = true := by
  intro fuel
  induction fuel with
  | zero => intro n c hc; simp [natStrGo] at hc
  | succ f ih =>
    intro n c hc
    unfold natStrGo at hc
    by_cases hn : n < 10
    · rw [if_pos hn] at hc
      simp only [List.mem_singleton] at hc
      subst hc
      exact digitChar_isDigit hn
    · rw [if_neg hn] at hc
      rcases List.mem_append.mp hc with h1 | h2
      · exact ih _ c h1
      · simp only [List.mem_singleton] at h2
        subst h2
        exact digitChar_isDigit (Nat.mod_lt _ (by norm_num))

theorem natStr_all_digits (n : Nat) : ∀ c ∈ natStr n, c.isDigit = true :=
  natStrGo_all_digits _ _

theorem natStr_ne_nil (n : Nat) : natStr n ≠ [] := by
  unfold natStr natStrGo
  by_cases hn : n < 10
  · rw [if_pos hn]; exact List.cons_ne_nil _ _
  · rw [if_neg hn]
    intro h
    exact absurd (List.append_eq_nil.mp h).2 (List.cons_ne_nil _ _)

theorem natStr_digitsOk (n : Nat) : digitsOk (natStr n) :=
  ⟨natStr_ne_nil n, natStr_all_digits n⟩

theorem evalDec_append_digit (l : List Char) (c : Char) :
    evalDec (l ++ [c]) = 10 * evalDec l + (c.toNat - 48) := by
  simp [evalDec, List.foldl_append]

theorem evalDec_natStrGo : ∀ (fuel n : Nat), n < fuel → evalDec (natStrGo fuel n) = n := by
  intro fuel
  induction fuel with
  | zero => intro n h; omega
  | succ f ih =>
    intro n hn
    unfold natStrGo
    by_cases h10 : n < 10
    · rw [if_pos h10]
      show 10 * 0 + ((digitChar n).toNat - 48) = n
      rw [digitChar_toNat h10]
      omega
    · rw [if_neg h10, evalDec_append_digit]
      have hdiv : n / 10 < f := by
        have h1 : n / 10 < n := Nat.div_lt_self (by omega) (by norm_num)
        omega
      rw [ih _ hdiv, digitChar_toNat (Nat.mod_lt _ (by norm_num))]
      omega

theorem evalDec_natStr (n : Nat) : evalDec (natStr n) = n :=
  evalDec_natStrGo _ _ (Nat.lt_succ_self n)

theorem parseUsize_natStr {n : Nat} (h : n ≤ USIZE_MAX) : parseUsize (natStr n) = some n := by
  have hA : (natStr n).isEmpty = false := by
    cases hn : natStr n with
    | nil => exact absurd hn (natStr_ne_nil n)
    | cons a l => rfl
  have hB : (natStr n).all Char.isDigit = true :=
    List.all_eq_true.mpr (natStr_all_digits n)
  simp [parseUsize, hA, hB, evalDec_natStr, h]

/-- A digit run that parses below the overflow bound evaluates to its value. -/
theorem parseUsize_of_digits {w : List Char} (hw : digitsOk w) (h : evalDec w ≤ USIZE_MAX) :
    parseUsize w = some (evalDec w) := by
  have hA : w.isEmpty = false := by
    cases hn : w with
    | nil => exact absurd hn hw.1
    | cons a l => rfl
  have hB : w.all Char.isDigit = true := List.all_eq_true.mpr hw.2
  simp [parseUsize, hA, hB, h]

/-- A digit run above the overflow bound panics the unchecked parse. -/
theorem parseUsize_overflow {w : List Char} (hw : digitsOk w) (h : USIZE_MAX < evalDec w) :
    parseUsize w = none := by
  have hA : w.isEmpty = false := by
    cases hn : w with
    | nil => exact absurd hn hw.1
    | cons a l => rfl
  have hB : w.all Char.isDigit = true := List.all_eq_true.mpr hw.2
  simp [parseUsize, hA, hB, Nat.not_le_of_lt h]

theorem not_dot_mem_intStr (i : Int) : '.' ∉ intStr i := by
  intro hmem
  unfold intStr at hmem
  have hdig : ∀ c ∈ natStr i.natAbs, c.isDigit = true := natStr_all_digits _
  split at hmem
  · rcases List.mem_cons.mp hmem with h1 | h2
    · exact absurd h1 (by decide)
    · have := hdig _ h2
      simp at this
  · have := hdig _ hmem
    simp at this

theorem splitOn_not_mem {sep : Char} : ∀ {l : List Char}, sep ∉ l → splitOn sep l = [l]
  | [], _ => rfl
  | c :: rest, h => by
    have hc : c ≠ sep := fun hh => h (hh ▸ List.mem_cons_self c rest)
    have ih := splitOn_not_mem (fun hh => h (List.mem_cons_of_mem c hh))
    conv_lhs => unfold splitOn
    rw [if_neg (by simpa using hc), ih]

theorem splitOn_append {sep : Char} : ∀ {a : List Char} (b : List Char), sep ∉ a →
    splitOn sep (a ++ sep :: b) = a :: splitOn sep b
  | [], b, _ => by
    show splitOn sep (sep :: b) = [] :: splitOn sep b
    conv_lhs => unfold splitOn
    rw [if_pos (by simp)]
  | c :: a, b, h => by
    have hc : c ≠ sep := fun hh => h (hh ▸ List.mem_cons_self c a)
    have ih := splitOn_append b (fun hh => h (List.mem_cons_of_mem c hh))
    show splitOn sep (c :: (a ++ sep :: b)) = (c :: a) :: splitOn sep b
    conv_lhs => unfold splitOn
    rw [if_neg (by simpa using hc), ih]

theorem contains_dot_pair (q r : Int) :
    (intStr q ++ '.' :: intStr r).contains '.' = true := by
  have : '.' ∈ intStr q ++ '.' :: intStr r :=
    List.mem_append_right _ (List.mem_cons_self _ _)
  exact List.elem_eq_true_of_mem this

theorem splitOn_dot_pair (q r : Int) :
    splitOn '.' (intStr q ++ '.' :: intStr r) = [intStr q, intStr r] := by
  rw [splitOn_append _ (not_dot_mem_intStr q), splitOn_not_mem (not_dot_mem_intStr r)]

/-! ## Capture-shape lemmas for well-formed instructions -/

theorem gotoCapt_shape {ds : List Char} (hds : digitsOk ds) :
    gotoCapt (str "goto " ++ ds) = some ds := by
  simp only [gotoCapt, expectStr_append, Option.bind_eq_bind, Option.some_bind,
    grabDigits_end hds, Option.pure_def]

theorem mathCapt_shape {dst l r : List Char} (op : List Char)
    (hdst : wordOk dst) (hl : wordOk l) (hr : wordOk r)
    (hop : op = str "+" ∨ op = str "-" ∨ op = str "*" ∨ op = str "/") :
    mathCapt (str "$" ++ (dst ++ (str " = $" ++ (l ++ (str " " ++ (op ++ (str " $" ++ r))))))) =
      some (dst, l, op, r) := by
  have e2 : grabWord (dst ++ (str " = $" ++ (l ++ (str " " ++ (op ++ (str " $" ++ r)))))) =
      some (dst, str " = $" ++ (l ++ (str " " ++ (op ++ (str " $" ++ r))))) :=
    grabWord_stop hdst (by decide)
  have e3 : grabWord (l ++ (str " " ++ (op ++ (str " $" ++ r)))) =
      some (l, str " " ++ (op ++ (str " $" ++ r))) :=
    grabWord_stop hl (by decide)
  have e4 : mathOpMatch (op ++ (str " $" ++ r)) = some (op, str " $" ++ r) := by
    rcases hop with h | h | h | h <;> subst h <;> rfl
  have e5 : grabWord r = some (r, []) := grabWord_end hr
  simp only [mathCapt, expectStr_append, e2, e3, e4, e5,
    Option.bind_eq_bind, Option.some_bind, Option.pure_def]

theorem ifCapt_shape {l r : List Char} (op ds : List Char)
    (hl : wordOk l) (hr : wordOk r) (hds : digitsOk ds)
    (hop : op = str "<" ∨ op = str "<=" ∨ op = str ">" ∨ op = str ">=" ∨
      op = str "=" ∨ op = str "!=") :
    ifCapt (str "if $" ++ (l ++ (str " " ++ (op ++ (str " $" ++
        (r ++ (str " goto " ++ ds))))))) =
      some (l, op, r, ds) := by
  have e1 : grabWord (l ++ (str " " ++ (op ++ (str " $" ++ (r ++ (str " goto " ++ ds)))))) =
      some (l, str " " ++ (op ++ (str " $" ++ (r ++ (str " goto " ++ ds))))) :=
    grabWord_stop hl (by decide)
  have e2 : opMatch (op ++ (str " $" ++ (r ++ (str " goto " ++ ds)))) =
      some (op, str " $" ++ (r ++ (str " goto " ++ ds))) := by
    rcases hop with h | h | h | h | h | h <;> subst h <;> rfl
  have e3 : grabWord (r ++ (str " goto " ++ ds)) = some (r, str " goto " ++ ds) :=
    grabWord_stop hr (by decide)
  have e4 : grabDigits ds = some (ds, []) := grabDigits_end hds
  simp only [ifCapt, expectStr_append, e1, e2, e3, e4, Option.bind_eq_bind, Option.some_bind,
    Option.pure_def]

/-- The Math regex is unanchored: on a `let` assignment the match starts at
the `$` after the four leading characters, none of which can start a match. -/
theorem scanCapt_math_letPrefix (X : List Char) :
    scanCapt mathCapt (str "let $" ++ X) = scanCapt mathCapt (str "$" ++ X) := by
  show scanCapt mathCapt ('l' :: ('e' :: ('t' :: (' ' :: (str "$" ++ X))))) = _
  rw [scanCapt_cons rfl, scanCapt_cons rfl, scanCapt_cons rfl, scanCapt_cons rfl]

/-! ## Claim C2: division semantics of the Math handler -/

/-- C2 (amended): on a division instruction whose operands exist and parse as
integers, and whose divisor is neither zero nor the overflow pair
`i128::MIN / -1`, Math binds the truncating quotient (as a decimal string) to
the destination, pushes the remainder onto the stack, advances the
instruction pointer by one, and transitions to Execute. -/
theorem C2_math_division (d : ProgramData) (dst l r lsv rsv : List Char) (lv rv : Int)
    (hd : d.get_code = some (str "let $" ++ dst ++ str " = $" ++ l ++ str " / $" ++ r))
    (hdst : wordOk dst) (hl : wordOk l) (hr : wordOk r)
    (hvl : d.get_var l = some lsv) (hvr : d.get_var r = some rsv)
    (hpl : parseI128 lsv = some lv) (hpr : parseI128 rsv = some rv)
    (hnz : rv ≠ 0) (hov : ¬(lv = I128_MIN ∧ rv = -1)) :
    MathState.execute d =
      some (.Ok ((((d.set_var dst (intStr (Int.tdiv lv rv))).push
          (intStr (Int.tmod lv rv))).next_line),
        Handler.ExecuteState)) := by
  simp only [List.append_assoc] at hd
  have hcapt : mathCapt (str "$" ++ (dst ++ (str " = $" ++ (l ++ (str " / $" ++ r))))) =
      some (dst, l, str "/", r) :=
    mathCapt_shape (str "/") hdst hl hr (by simp)
  have hscan : scanCapt mathCapt (str "let $" ++ (dst ++ (str " = $" ++
      (l ++ (str " / $" ++ r))))) = some (dst, l, str "/", r) := by
    rw [scanCapt_math_letPrefix]
    exact scanCapt_here hcapt
  unfold MathState.execute decode_and_execute
  simp only [hd, hscan, hvl, hvr, hpl, hpr]
  rw [if_neg (not_or.mpr ⟨hnz, hov⟩)]
  rw [if_neg (show ¬(str "/" = str "*") from by decide)]
  simp only [contains_dot_pair, eq_self_iff_true, if_true, splitOn_dot_pair]
  rfl

/-- C2 fails as stated: with `a = "5"` and `b = "0"` both variables exist and
both values parse as integers, but the division instruction panics (`none`)
rather than binding a quotient. -/
theorem C2_counterexample :
    MathState.execute
      ⟨[str "let $c = $a / $b"], [(str "a", str "5"), (str "b", str "0")], [], 0⟩ = none
    ∧ parseI128 (str "0") = some 0 := by
  constructor
  · decide
  · decide

/-- Witness for C2 — end-to-end scenario B: with `a = "5"` and `b = "2"`,
after `let $c = $a / $b` the variable `c` holds `"2"`, the popped stack top
is `"1"`, the instruction pointer advanced to `1`, and the next handler is
Execute. -/
theorem C2_math_division_witness :
    MathState.execute
      ⟨[str "let $c = $a / $b"], [(str "a", str "5"), (str "b", str "2")], [], 0⟩ =
      some (.Ok ((((ProgramData.mk [str "let $c = $a / $b"]
          [(str "a", str "5"), (str "b", str "2")] [] 0).set_var (str "c")
            (intStr (Int.tdiv 5 2))).push (intStr (Int.tmod 5 2))).next_line,
        Handler.ExecuteState))
    ∧ ((((ProgramData.mk [str "let $c = $a / $b"]
          [(str "a", str "5"), (str "b", str "2")] [] 0).set_var (str "c")
            (intStr (Int.tdiv 5 2))).push (intStr (Int.tmod 5 2))).next_line).get_var
        (str "c") = some (str "2")
    ∧ (((((ProgramData.mk [str "let $c = $a / $b"]
          [(str "a", str "5"), (str "b", str "2")] [] 0).set_var (str "c")
            (intStr (Int.tdiv 5 2))).push (intStr (Int.tmod 5 2))).next_line).pop).1 =
        some (str "1") := by
  refine ⟨?_, by decide, by decide⟩
  exact C2_math_division _ (str "c") (str "a") (str "b") (str "5") (str "2") 5 2
    (by decide) (by decide) (by decide) (by decide) (by decide) (by decide)
    (by decide) (by decide) (by decide) (by decide)

/-! ## Claim C7: semantics of the If handler -/

/-- C7 (amended): on an If instruction whose two variables exist and whose
goto index fits in `usize`, the values are compared with the lexicographic
string predicate selected by the operator; if it holds the instruction
pointer is set to the goto index, otherwise it advances by one, and in both
cases the next handler is Execute. -/
theorem C7_if_comparison (d : ProgramData) (l r op : List Char) (t : Nat)
    (lsv rsv : List Char)
    (hd : d.get_code = some (str "if $" ++ l ++ str " " ++ op ++ str " $" ++ r ++
      str " goto " ++ natStr t))
    (hl : wordOk l) (hr : wordOk r)
    (hop : op = str "<" ∨ op = str "<=" ∨ op = str ">" ∨ op = str ">=" ∨
      op = str "=" ∨ op = str "!=")
    (ht : t ≤ USIZE_MAX)
    (hvl : d.get_var l = some lsv) (hvr : d.get_var r = some rsv) :
    IfState.execute d =
      some (.Ok (d.set_index
        (if ifPredicate op lsv rsv then t else d.index + 1), Handler.ExecuteState)) := by
  simp only [List.append_assoc] at hd
  have hcapt := ifCapt_shape op (natStr t) hl hr (natStr_digitsOk t) hop
  have hscan : scanCapt ifCapt (str "if $" ++ (l ++ (str " " ++ (op ++ (str " $" ++
      (r ++ (str " goto " ++ natStr t))))))) = some (l, op, r, natStr t) :=
    scanCapt_here hcapt
  unfold IfState.execute decode_and_execute
  simp only [hd, hscan, parseUsize_natStr ht, hvl, hvr]
  rfl

/-- C7 fails as stated: the goto target is parsed with an unchecked
`parse::<usize>().unwrap()` before anything else, so an If instruction with a
26-digit target panics (`none`) even though `a = "1"`, `b = "0"` exist and
the claim requires the fall-through `ip + 1`. -/
theorem C7_counterexample :
    IfState.execute
      ⟨[str "if $a < $b goto 99999999999999999999999999"],
        [(str "a", str "1"), (str "b", str "0")], [], 0⟩ = none := by
  decide

/-- Witness for C7 — end-to-end scenario C: `if $a < $b goto 2` jumps to 2
when `a = "0" < b = "1"` and falls through to 1 when `a = "1"`, `b = "0"`. -/
theorem C7_if_comparison_witness :
    IfState.execute
      ⟨[str "if $a < $b goto 2", str "quit", str "quit"],
        [(str "a", str "0"), (str "b", str "1")], [], 0⟩ =
      some (.Ok ((ProgramData.mk [str "if $a < $b goto 2", str "quit", str "quit"]
          [(str "a", str "0"), (str "b", str "1")] [] 0).set_index
            (if ifPredicate (str "<") (str "0") (str "1") then 2 else 0 + 1),
        Handler.ExecuteState))
    ∧ (if ifPredicate (str "<") (str "0") (str "1") then 2 else 0 + 1) = 2
    ∧ IfState.execute
      ⟨[str "if $a < $b goto 2", str "quit", str "quit"],
        [(str "a", str "1"), (str "b", str "0")], [], 0⟩ =
      some (.Ok ((ProgramData.mk [str "if $a < $b goto 2", str "quit", str "quit"]
          [(str "a", str "1"), (str "b", str "0")] [] 0).set_index
            (if ifPredicate (str "<") (str "1") (str "0") then 2 else 0 + 1),
        Handler.ExecuteState))
    ∧ (if ifPredicate (str "<") (str "1") (str "0") then 2 else 0 + 1) = 1 := by
  refine ⟨?_, by decide, ?_, by decide⟩
  · have h := C7_if_comparison
      ⟨[str "if $a < $b goto 2", str "quit", str "quit"],
        [(str "a", str "0"), (str "b", str "1")], [], 0⟩
      (str "a") (str "b") (str "<") 2 (str "0") (str "1")
      (by decide) (by decide) (by decide) (by simp) (by decide) (by decide) (by decide)
    exact h
  · have h := C7_if_comparison
      ⟨[str "if $a < $b goto 2", str "quit", str "quit"],
        [(str "a", str "1"), (str "b", str "0")], [], 0⟩
      (str "a") (str "b") (str "<") 2 (str "1") (str "0")
      (by decide) (by decide) (by decide) (by simp) (by decide) (by decide) (by decide)
    exact h

/-! ## Infrastructure for the loader theorems (C3, C4, C5) -/

/-- The per-line capture function `load_segment` is called with, by kind. -/
def segCapt : SegmentErrorTypes → (List Char → Option (List Char × List Char))
  | .Variable => varLineCaptures
  | .Code => codeLineCaptures

/-- A well-formed declaration line: decimal index, one space, payload. -/
def lineFor (i : Nat) (p : List Char) : List Char := natStr i ++ ' ' :: p

/-- Join pieces with `'\n'` separators (the inverse of the line splitter for
texts with plain line endings). -/
def joinLines : List (List Char) → List Char
  | [] => []
  | [p] => p
  | p :: rest => p ++ '\n' :: joinLines rest

/-- What it means for a payload to match a segment kind's payload grammar:
`(\w+)` for the variable segment, `(.+)` (nonempty, newline-free) for the
code segment. -/
def payloadOk : SegmentErrorTypes → List Char → Prop
  | .Variable, p => wordOk p
  | .Code, p => p ≠ [] ∧ '\n' ∉ p

instance (kind : SegmentErrorTypes) (p : List Char) : Decidable (payloadOk kind p) := by
  cases kind <;> (unfold payloadOk; infer_instance)

/-- The first character of a payload as the segment precheck needs it. -/
def headOk : SegmentErrorTypes → Char → Prop
  | .Variable, c => isWordChar c = true
  | .Code, c => c ≠ '\n'

theorem payloadOk_ne_nil {kind : SegmentErrorTypes} {p : List Char}
    (h : payloadOk kind p) : p ≠ [] := by
  cases kind <;> exact h.1

theorem wordChar_ne_newline {c : Char} (h : isWordChar c = true) : c ≠ '\n' :=
  fun e => absurd (e ▸ h) (by decide)

theorem wordChar_ne_cr {c : Char} (h : isWordChar c = true) : c ≠ '\r' :=
  fun e => absurd (e ▸ h) (by decide)

theorem digit_ne_newline {c : Char} (h : c.isDigit = true) : c ≠ '\n' :=
  fun e => absurd (e ▸ h) (by decide)

theorem isDigit_not_wsp {c : Char} (h : c.isDigit = true) : isWsp c = false := by
  have h1 : (c == ' ') = false := beq_eq_false_iff_ne.mpr (fun e => absurd (e ▸ h) (by decide))
  have h2 : (c == '\t') = false := beq_eq_false_iff_ne.mpr (fun e => absurd (e ▸ h) (by decide))
  have h3 : (c == '\n') = false := beq_eq_false_iff_ne.mpr (fun e => absurd (e ▸ h) (by decide))
  have h4 : (c == '\r') = false := beq_eq_false_iff_ne.mpr (fun e => absurd (e ▸ h) (by decide))
  have h5 : (c == '\x0B') = false :=
    beq_eq_false_iff_ne.mpr (fun e => absurd (e ▸ h) (by decide))
  have h6 : (c == '\x0C') = false :=
    beq_eq_false_iff_ne.mpr (fun e => absurd (e ▸ h) (by decide))
  simp [isWsp, h1, h2, h3, h4, h5, h6]

theorem payloadOk_no_newline {kind : SegmentErrorTypes} {p : List Char}
    (h : payloadOk kind p) : '\n' ∉ p := by
  cases kind with
  | Variable => exact fun hm => (wordChar_ne_newline (h.2 _ hm)) rfl
  | Code => exact h.2

theorem payloadOk_headOk {kind : SegmentErrorTypes} {p : List Char} {c : Char}
    (h : payloadOk kind p) (hc : p.head? = some c) : headOk kind c := by
  have hm : c ∈ p := by
    cases p with
    | nil => exact Option.noConfusion hc
    | cons a t => exact (Option.some.inj hc) ▸ List.mem_cons_self a t
  cases kind with
  | Variable => exact h.2 _ hm
  | Code => exact fun e => h.2 (e ▸ hm)

theorem getLast?_some_mem {α : Type} : ∀ {l : List α} {a : α}, l.getLast? = some a → a ∈ l
  | [], _, h => Option.noConfusion h
  | [x], a, h => by
    have : x = a := Option.some.inj h
    exact this ▸ List.mem_cons_self x []
  | x :: y :: t, a, h => by
    rw [List.getLast?_cons_cons] at h
    exact List.mem_cons_of_mem x (getLast?_some_mem h)

theorem lineFor_ne_nil (i : Nat) (p : List Char) : lineFor i p ≠ [] :=
  List.append_ne_nil_of_left_ne_nil (natStr_ne_nil i) _

theorem lineFor_no_newline {kind : SegmentErrorTypes} {p : List Char} (i : Nat)
    (h : payloadOk kind p) : '\n' ∉ lineFor i p := by
  intro hm
  rcases List.mem_append.mp hm with h1 | h2
  · exact (digit_ne_newline (natStr_all_digits i _ h1)) rfl
  · rcases List.mem_cons.mp h2 with h3 | h4
    · exact absurd h3 (by decide)
    · exact payloadOk_no_newline h h4

theorem lineFor_last_ne_cr {p : List Char} (i : Nat) (hp : p ≠ []) (h : '\r' ∉ p) :
    (lineFor i p).getLast? ≠ some '\r' := by
  intro hlast
  have hrw : lineFor i p = (natStr i ++ [' ']) ++ p := List.append_cons _ _ _
  rw [hrw, List.getLast?_append] at hlast
  cases hx : p.getLast? with
  | none => exact hp (List.getLast?_eq_none_iff.mp hx)
  | some x =>
    rw [hx] at hlast
    have : x = '\r' := Option.some.inj hlast
    exact h (this ▸ getLast?_some_mem hx)

/-! Lemmas relating `joinLines` and `splitLines`. -/

theorem splitNL_no_newline : ∀ {p : List Char}, '\n' ∉ p → splitNL p = [p]
  | [], _ => rfl
  | c :: rest, h => by
    have hc : c ≠ '\n' := fun hh => h (hh ▸ List.mem_cons_self _ _)
    have ih := splitNL_no_newline (fun hh => h (List.mem_cons_of_mem c hh))
    show splitNL (c :: rest) = [c :: rest]
    conv_lhs => unfold splitNL
    rw [if_neg hc, ih]

theorem splitNL_append : ∀ {p : List Char} (t : List Char), '\n' ∉ p →
    splitNL (p ++ '\n' :: t) = p :: splitNL t
  | [], t, _ => by
    show splitNL ('\n' :: t) = [] :: splitNL t
    conv_lhs => unfold splitNL
    rw [if_pos rfl]
  | c :: p, t, h => by
    have hc : c ≠ '\n' := fun hh => h (hh ▸ List.mem_cons_self _ _)
    have ih := splitNL_append t (fun hh => h (List.mem_cons_of_mem c hh))
    show splitNL (c :: (p ++ '\n' :: t)) = (c :: p) :: splitNL t
    conv_lhs => unfold splitNL
    rw [if_neg hc, ih]

theorem stripCR_of_no_cr {l : List Char} (h : l.getLast? ≠ some '\r') : stripCR l = l := by
  unfold stripCR
  rw [if_neg h]

theorem mapStripLast_id : ∀ {ps : List (List Char)},
    (∀ p ∈ ps, p.getLast? ≠ some '\r') → mapStripLast ps = ps
  | [], _ => rfl
  | [p], _ => rfl
  | p :: q :: t, h => by
    have ih := mapStripLast_id (fun x hx => h x (List.mem_cons_of_mem p hx))
    show stripCR p :: mapStripLast (q :: t) = p :: (q :: t)
    rw [stripCR_of_no_cr (h p (List.mem_cons_self _ _)), ih]

theorem splitNL_joinLines : ∀ {ps : List (List Char)}, ps ≠ [] →
    (∀ p ∈ ps, '\n' ∉ p) → splitNL (joinLines ps) = ps
  | [], h, _ => absurd rfl h
  | [p], _, h => by
    show splitNL p = [p]
    exact splitNL_no_newline (h p (List.mem_cons_self _ _))
  | p :: q :: t, _, h => by
    have ih := splitNL_joinLines (List.cons_ne_nil q t)
      (fun x hx => h x (List.mem_cons_of_mem p hx))
    show splitNL (p ++ '\n' :: joinLines (q :: t)) = p :: (q :: t)
    rw [splitNL_append _ (h p (List.mem_cons_self _ _)), ih]

theorem splitLines_joinLines {ps : List (List Char)} (hne : ps ≠ [])
    (h1 : ∀ p ∈ ps, '\n' ∉ p) (h2 : ∀ p ∈ ps, p.getLast? ≠ some '\r') :
    splitLines (joinLines ps) = ps := by
  unfold splitLines
  rw [splitNL_joinLines hne h1, mapStripLast_id h2]

theorem zipWith_mem {α β γ : Type} (f : α → β → γ) :
    ∀ {as : List α} {bs : List β} {x : γ}, x ∈ List.zipWith f as bs →
      ∃ a ∈ as, ∃ b ∈ bs, x = f a b
  | [], _, x, h => by simp at h
  | _ :: _, [], x, h => by simp at h
  | a :: as, b :: bs, x, h => by
    rcases List.mem_cons.mp h with h1 | h2
    · exact ⟨a, List.mem_cons_self _ _, b, List.mem_cons_self _ _, h1⟩
    · obtain ⟨a', ha, b', hb, he⟩ := zipWith_mem f h2
      exact ⟨a', List.mem_cons_of_mem _ ha, b', List.mem_cons_of_mem _ hb, he⟩

/-! Lemmas about `trim` on a joined segment text. -/

theorem dropWhile_append_ne_nil {α : Type} (p : α → Bool) :
    ∀ (x y : List α), x.dropWhile p ≠ [] → (x ++ y).dropWhile p = x.dropWhile p ++ y
  | [], _, h => absurd rfl h
  | c :: x, y, h => by
    by_cases hc : p c = true
    · rw [List.dropWhile_cons, if_pos hc] at h
      rw [List.cons_append, List.dropWhile_cons, if_pos hc, List.dropWhile_cons, if_pos hc]
      exact dropWhile_append_ne_nil p x y h
    · have hc' : p c = false := by simpa using hc
      rw [List.cons_append, List.dropWhile_cons, if_neg (by simp [hc']),
        List.dropWhile_cons, if_neg (by simp [hc'])]
      rfl

theorem rtrim_append_keep {a b : List Char} (hb : ∃ c ∈ b, isWsp c = false) :
    rtrim (a ++ b) = a ++ rtrim b ∧ rtrim b ≠ [] ∧ (rtrim b).head? = b.head? := by
  obtain ⟨c, hcm, hcw⟩ := hb
  have hne : b.reverse.dropWhile isWsp ≠ [] := by
    intro hnil
    have hall := List.dropWhile_eq_nil_iff.mp hnil
    have := hall c (List.mem_reverse.mpr hcm)
    rw [hcw] at this
    exact Bool.noConfusion this
  have heq : rtrim (a ++ b) = a ++ rtrim b := by
    unfold rtrim
    rw [List.reverse_append, dropWhile_append_ne_nil _ _ _ hne, List.reverse_append,
      List.reverse_reverse]
  have hne2 : rtrim b ≠ [] := by
    unfold rtrim
    rw [ne_eq, List.reverse_eq_nil_iff]
    exact hne
  refine ⟨heq, hne2, ?_⟩
  obtain ⟨u, hu⟩ := List.dropWhile_suffix (l := b.reverse) isWsp
  have hb' : b = rtrim b ++ u.reverse := by
    have := congrArg List.reverse hu
    rw [List.reverse_append, List.reverse_reverse] at this
    exact this.symm
  cases hx : rtrim b with
  | nil => exact absurd hx hne2
  | cons z zs =>
    rw [hb', hx]
    rfl

/-- A well-formed line is captured as (index digits, payload) by its
segment's line regex. -/
theorem segCapt_lineFor {kind : SegmentErrorTypes} {p : List Char} (i : Nat)
    (hp : payloadOk kind p) : segCapt kind (lineFor i p) = some (natStr i, p) := by
  obtain ⟨t, dr⟩ :=
    takeWhile_append_stop Char.isDigit (natStr i) p (natStr_all_digits i)
      (show Char.isDigit ' ' = false from by decide)
  have hds : (natStr i).isEmpty = false := by
    cases hn : natStr i with
    | nil => exact absurd hn (natStr_ne_nil i)
    | cons a l => rfl
  have hpe : p.isEmpty = false := by
    cases hn : p with
    | nil => exact absurd hn (payloadOk_ne_nil hp)
    | cons a l => rfl
  cases kind with
  | Variable =>
    show varLineCaptures (lineFor i p) = some (natStr i, p)
    unfold varLineCaptures lineFor
    rw [t, dr]
    rw [if_neg (by simp [hds])]
    show (let w := p.takeWhile isWordChar
      if w.isEmpty then none else some (natStr i, w)) = some (natStr i, p)
    rw [(takeWhile_all isWordChar p hp.2).1]
    rw [if_neg (by simp [hpe])]
  | Code =>
    show codeLineCaptures (lineFor i p) = some (natStr i, p)
    have hall : ∀ c ∈ p, (c != '\n') = true := by
      intro c hm
      exact bne_iff_ne.mpr (fun e => hp.2 (e ▸ hm))
    unfold codeLineCaptures lineFor
    rw [t, dr]
    rw [if_neg (by simp [hds])]
    show (let w := p.takeWhile (fun c => c != '\n')
      if w.isEmpty then none else some (natStr i, w)) = some (natStr i, p)
    rw [(takeWhile_all _ p hall).1]
    rw [if_neg (by simp [hpe])]

/-- `trim` of a text that starts with a well-formed line keeps the index, the
separator and the head of the payload. -/
theorem trim_line_shape (i : Nat) {p : List Char} (tail : List Char) (hp : p ≠ [])
    (hw : ∃ c ∈ p, isWsp c = false) :
    ∃ q, trim (natStr i ++ ' ' :: (p ++ tail)) = natStr i ++ ' ' :: q ∧
      q ≠ [] ∧ q.head? = p.head? := by
  have hlt : ltrim (natStr i ++ ' ' :: (p ++ tail)) = natStr i ++ ' ' :: (p ++ tail) := by
    obtain ⟨d, ds, hn⟩ : ∃ d ds, natStr i = d :: ds := by
      cases hn : natStr i with
      | nil => exact absurd hn (natStr_ne_nil i)
      | cons a l => exact ⟨a, l, rfl⟩
    have hd : d.isDigit = true := natStr_all_digits i d (hn ▸ List.mem_cons_self _ _)
    rw [hn]
    show List.dropWhile isWsp ((d :: ds) ++ ' ' :: (p ++ tail)) =
      (d :: ds) ++ ' ' :: (p ++ tail)
    rw [List.cons_append, List.dropWhile_cons, if_neg (by simp [isDigit_not_wsp hd])]
  have hb : ∃ c ∈ p ++ tail, isWsp c = false := by
    obtain ⟨c, hm, hc⟩ := hw
    exact ⟨c, List.mem_append_left _ hm, hc⟩
  have hra := rtrim_append_keep (a := natStr i ++ [' ']) (b := p ++ tail) hb
  refine ⟨rtrim (p ++ tail), ?_, hra.2.1, ?_⟩
  · unfold trim
    rw [hlt, List.append_cons (natStr i) ' ' (p ++ tail), hra.1, ← List.append_cons]
  · rw [hra.2.2]
    cases p with
    | nil => exact absurd rfl hp
    | cons c₀ p' => rfl

/-- Descending through leading blank pieces, `trim` of the joined text
exposes the first declaration line. -/
theorem trim_joinLines_shape :
    ∀ (pieces : List (List Char)) (i₀ : Nat) (p₀ : List Char) (restL : List (List Char)),
      pieces.filter (fun l => !l.isEmpty) = lineFor i₀ p₀ :: restL →
      p₀ ≠ [] → (∃ c ∈ p₀, isWsp c = false) →
      ∃ q, trim (joinLines pieces) = natStr i₀ ++ ' ' :: q ∧ q ≠ [] ∧ q.head? = p₀.head?
  | [], i₀, p₀, restL, hf, _, _ => by simp at hf
  | piece :: rest, i₀, p₀, restL, hf, hp, hw => by
    by_cases he : piece.isEmpty = true
    · have hpe : piece = [] := List.isEmpty_iff.mp he
      subst hpe
      rw [List.filter_cons, if_neg (by decide)] at hf
      cases rest with
      | nil => simp at hf
      | cons r t =>
        have ih := trim_joinLines_shape (r :: t) i₀ p₀ restL hf hp hw
        show ∃ q, trim ('\n' :: joinLines (r :: t)) = natStr i₀ ++ ' ' :: q ∧
          q ≠ [] ∧ q.head? = p₀.head?
        have htr : trim ('\n' :: joinLines (r :: t)) = trim (joinLines (r :: t)) := by
          unfold trim ltrim
          rw [List.dropWhile_cons, if_pos (by decide)]
        rw [htr]
        exact ih
    · rw [List.filter_cons, if_pos (by simpa using he)] at hf
      have hpiece : piece = lineFor i₀ p₀ := (List.cons.inj hf).1
      subst hpiece
      cases rest with
      | nil =>
        show ∃ q, trim (lineFor i₀ p₀) = natStr i₀ ++ ' ' :: q ∧ q ≠ [] ∧ q.head? = p₀.head?
        have hts := trim_line_shape i₀ (p := p₀) [] hp hw
        simp only [List.append_nil] at hts
        exact hts
      | cons r t =>
        show ∃ q, trim (lineFor i₀ p₀ ++ '\n' :: joinLines (r :: t)) =
          natStr i₀ ++ ' ' :: q ∧ q ≠ [] ∧ q.head? = p₀.head?
        have heq : lineFor i₀ p₀ ++ '\n' :: joinLines (r :: t) =
            natStr i₀ ++ ' ' :: (p₀ ++ '\n' :: joinLines (r :: t)) := by
          unfold lineFor
          rw [List.append_assoc]
          rfl
        rw [heq]
        exact trim_line_shape i₀ _ hp hw

/-- The whole-segment precheck (`is_match` on the trimmed region) succeeds
when the trimmed region starts like a well-formed line. -/
theorem segCapt_isSome_shape {kind : SegmentErrorTypes} (i : Nat) {q : List Char} {c₀ : Char}
    (hq : q.head? = some c₀) (hc : headOk kind c₀) :
    (segCapt kind (natStr i ++ ' ' :: q)).isSome = true := by
  obtain ⟨t, dr⟩ :=
    takeWhile_append_stop Char.isDigit (natStr i) q (natStr_all_digits i)
      (show Char.isDigit ' ' = false from by decide)
  have hds : (natStr i).isEmpty = false := by
    cases hn : natStr i with
    | nil => exact absurd hn (natStr_ne_nil i)
    | cons a l => rfl
  obtain ⟨q', rfl⟩ : ∃ q', q = c₀ :: q' := by
    cases q with
    | nil => exact Option.noConfusion hq
    | cons a l => exact ⟨l, by rw [Option.some.inj hq]⟩
  cases kind with
  | Variable =>
    show (varLineCaptures (natStr i ++ ' ' :: (c₀ :: q'))).isSome = true
    unfold varLineCaptures
    rw [t, dr]
    rw [if_neg (by simp [hds])]
    have hc' : isWordChar c₀ = true := hc
    show (let w := (c₀ :: q').takeWhile isWordChar
      if w.isEmpty then none else some (natStr i, w)).isSome = true
    rw [List.takeWhile_cons, if_pos hc']
    rfl
  | Code =>
    show (codeLineCaptures (natStr i ++ ' ' :: (c₀ :: q'))).isSome = true
    unfold codeLineCaptures
    rw [t, dr]
    rw [if_neg (by simp [hds])]
    have hc' : c₀ ≠ '\n' := hc
    show (let w := (c₀ :: q').takeWhile (fun c => c != '\n')
      if w.isEmpty then none else some (natStr i, w)).isSome = true
    rw [List.takeWhile_cons, if_pos (bne_iff_ne.mpr hc')]
    rfl

theorem isEmpty_false_of_ne_nil {l : List Char} (h : l ≠ []) : l.isEmpty = false := by
  cases l with
  | nil => exact absurd rfl h
  | cons a t => rfl

/-- The loader loop accepts a run of correctly indexed well-formed lines. -/
theorem loadLoop_ok {kind : SegmentErrorTypes} :
    ∀ (pieces : List (List Char)) (k : Nat) (ps acc : List (List Char)),
      pieces.filter (fun l => !l.isEmpty) = List.zipWith lineFor (List.range' k ps.length) ps →
      (∀ p ∈ ps, payloadOk kind p) →
      k + ps.length ≤ USIZE_MAX + 1 →
      loadLoop kind (segCapt kind) pieces k acc = some (.Ok (acc.reverse ++ ps))
  | [], k, ps, acc, hf, _, _ => by
    have hps : ps = [] := by
      have hlen := congrArg List.length hf
      simp only [List.filter_nil, List.length_nil, List.length_zipWith,
        List.length_range', Nat.min_self] at hlen
      exact List.length_eq_zero.mp hlen.symm
    subst hps
    show some (Result.Ok acc.reverse) = some (Result.Ok (acc.reverse ++ []))
    rw [List.append_nil]
  | piece :: rest, k, ps, acc, hf, hok, hbound => by
    by_cases he : piece.isEmpty = true
    · rw [List.filter_cons, if_neg (by simp [he])] at hf
      show loadLoop kind (segCapt kind) (piece :: rest) k acc = _
      unfold loadLoop
      rw [if_pos he]
      exact loadLoop_ok rest k ps acc hf hok hbound
    · rw [List.filter_cons, if_pos (by simpa using he)] at hf
      cases ps with
      | nil => simp at hf
      | cons p ps' =>
        rw [show (p :: ps').length = ps'.length + 1 from rfl, List.range'_succ] at hf
        have hf1 : piece = lineFor k p := (List.cons.inj hf).1
        have hf2 : rest.filter (fun l => !l.isEmpty) =
            List.zipWith lineFor (List.range' (k + 1) ps'.length) ps' := (List.cons.inj hf).2
        subst hf1
        have hbound' : k ≤ USIZE_MAX := by
          simp only [List.length_cons] at hbound
          omega
        have ih := loadLoop_ok rest (k + 1) ps' (p :: acc) hf2
          (fun x hx => hok x (List.mem_cons_of_mem _ hx))
          (by simp only [List.length_cons] at hbound; omega)
        unfold loadLoop
        rw [if_neg (by simp [isEmpty_false_of_ne_nil (lineFor_ne_nil k p)])]
        simp only [segCapt_lineFor k (hok p (List.mem_cons_self _ _)),
          parseUsize_natStr hbound']
        rw [if_neg (fun hh => hh rfl), ih]
        rw [List.reverse_cons, List.append_assoc]
        rfl

/-- The loader loop rejects the first line whose declared index differs from
the running counter with `NotChronological`, provided every line matches the
grammar and every index parses. -/
theorem loadLoop_notchrono {kind : SegmentErrorTypes} :
    ∀ (pieces : List (List Char)) (k : Nat) (idxs : List Nat) (ps acc : List (List Char)),
      pieces.filter (fun l => !l.isEmpty) = List.zipWith lineFor idxs ps →
      idxs.length = ps.length →
      (∀ i ∈ idxs, i ≤ USIZE_MAX) →
      (∀ p ∈ ps, payloadOk kind p) →
      (∃ j, j < idxs.length ∧ idxs[j]? ≠ some (k + j)) →
      loadLoop kind (segCapt kind) pieces k acc =
        some (.Err (errorValue kind .NotChronological))
  | [], k, idxs, ps, acc, hf, hlen, _, _, hviol => by
    exfalso
    have h0 : idxs.length = 0 := by
      have hl := congrArg List.length hf
      simp only [List.filter_nil, List.length_nil, List.length_zipWith] at hl
      omega
    obtain ⟨j, hj, _⟩ := hviol
    omega
  | piece :: rest, k, idxs, ps, acc, hf, hlen, hidx, hok, hviol => by
    by_cases he : piece.isEmpty = true
    · rw [List.filter_cons, if_neg (by simp [he])] at hf
      show loadLoop kind (segCapt kind) (piece :: rest) k acc = _
      unfold loadLoop
      rw [if_pos he]
      exact loadLoop_notchrono rest k idxs ps acc hf hlen hidx hok hviol
    · rw [List.filter_cons, if_pos (by simpa using he)] at hf
      cases idxs with
      | nil => simp at hf
      | cons i₀ idxs' =>
        cases ps with
        | nil => simp at hf
        | cons p ps' =>
          rw [List.zipWith_cons_cons] at hf
          have hf1 : piece = lineFor i₀ p := (List.cons.inj hf).1
          have hf2 : rest.filter (fun l => !l.isEmpty) =
              List.zipWith lineFor idxs' ps' := (List.cons.inj hf).2
          subst hf1
          unfold loadLoop
          rw [if_neg (by simp [isEmpty_false_of_ne_nil (lineFor_ne_nil i₀ p)])]
          simp only [segCapt_lineFor i₀ (hok p (List.mem_cons_self _ _)),
            parseUsize_natStr (hidx i₀ (List.mem_cons_self _ _))]
          by_cases hik : i₀ = k
          · subst hik
            rw [if_neg (fun hh => hh rfl)]
            have hviol' : ∃ j, j < idxs'.length ∧ idxs'[j]? ≠ some (i₀ + 1 + j) := by
              obtain ⟨j, hj, hne⟩ := hviol
              cases j with
              | zero =>
                exfalso
                apply hne
                simp
              | succ j' =>
                refine ⟨j', by simpa using hj, ?_⟩
                rw [List.getElem?_cons_succ] at hne
                intro hh
                apply hne
                rw [hh]
                congr 1
                omega
            exact loadLoop_notchrono rest (i₀ + 1) idxs' ps' (p :: acc) hf2
              (by simpa using hlen) (fun i hi => hidx i (List.mem_cons_of_mem _ hi))
              (fun x hx => hok x (List.mem_cons_of_mem _ hx)) hviol'
          · rw [if_pos hik]

/-! ## Claims C3, C4, C5: the segment loader -/

/-- C4 fails as stated: the body `"\n"` consists only of blank lines, yet the
variable-segment loader returns the `MalformedSegment` code `7`, not an empty
sequence — only the literally empty string takes the early `Ok([])` return. -/
theorem C4_counterexample :
    load_variable_segment (str "\n") =
      some (.Err (errorValue SegmentErrorTypes.Variable ErrorTypes.MalformedSegment))
    ∧ load_variable_segment (str "\n") ≠ some (.Ok []) := by
  constructor
  · decide
  · decide

/-- C4 (amended): the loader returns `Ok` with an empty sequence exactly for
the empty string; a nonempty body that trims to nothing (for example one
consisting only of blank lines) fails the whole-segment precheck and yields
`MalformedSegment` for the segment kind. -/
theorem C4_empty_segment (kind : SegmentErrorTypes) (s : List Char) :
    (s = [] → load_segment kind s (segCapt kind) = some (.Ok []))
    ∧ (s ≠ [] → trim s = [] →
      load_segment kind s (segCapt kind) =
        some (.Err (errorValue kind ErrorTypes.MalformedSegment))) := by
  constructor
  · rintro rfl
    rfl
  · intro hne htrim
    unfold load_segment
    rw [if_neg (fun h => hne (List.length_eq_zero.mp h)), htrim]
    have hcap : segCapt kind [] = none := by cases kind <;> rfl
    rw [hcap]
    rfl

/-- Witness for C4: the empty variable body loads as the empty sequence, and
the blank body `"\n"` trims to nothing and yields the variable-kind
`MalformedSegment` code. -/
theorem C4_empty_segment_witness :
    load_segment SegmentErrorTypes.Variable [] (segCapt SegmentErrorTypes.Variable) =
      some (.Ok [])
    ∧ load_segment SegmentErrorTypes.Variable (str "\n") (segCapt SegmentErrorTypes.Variable) =
      some (.Err (errorValue SegmentErrorTypes.Variable ErrorTypes.MalformedSegment)) :=
  ⟨(C4_empty_segment SegmentErrorTypes.Variable []).1 rfl,
   (C4_empty_segment SegmentErrorTypes.Variable (str "\n")).2 (by decide) (by decide)⟩

end COS341
